import Mathlib

/-!
# mini-scan: the conditional store write and the message decoder

A shallow embedding of

* `internal/managers/scan_manager/manager.go` : `ScanResult`, `scanManager.PutScan`
* `internal/repositories/dynamodb/dynamodb.go` : `dynamoDB.Put`
* `internal/serializer/serializer.go` : `ParseScanMessage`
* `cmd/consumer/consumer.go` : the handler `runConsumer` passes to `sub.Receive`

Go strings are byte sequences.  The key-value table behind `dynamoDB.Put` is a
function from the hash key `pk` to the stored item; the `PutItem` call of the
AWS client is a field of the client, and `DynamoDB.client` is the conditional
put of the DynamoDB documentation on such a table, which receives the strings of
a request as the JSON encoder of the client writes them.

A message body is a `Payload`: what the scanner of `encoding/json` makes of the
bytes, either no JSON at all or a JSON value.  `Unmarshal` and `Marshal` of
`encoding/json` and the codec of `encoding/base64` are written out on these
values; what `encoding/json` does with numbers that pass through `float64` is
left to a parameter, `Float64Rules`.  The package `pkg/scanning` is not among
the sources: its structs and constants are modelled from the spec.

A repository is a `Put` over a state of any type; the handler is the run of one
delivered message, from the consumer before it to the consumer after it and the
calls made on the message.

The definitions come first, the write rule and the envelope in the spec's words
after them, then the lemmas, then one theorem for each claim.
-/

namespace MiniScan

/-! ## Go values -/

/-- One byte. -/
abbrev Byte := Fin 256

/-- A Go `string`: an immutable sequence of bytes. -/
abbrev GoString := List Byte

/-- UTF-8 encoding of one code point, as Go stores the runes of a string. -/
def utf8EncodeChar (c : Char) : List Byte :=
  let v := c.toNat
  if v ≤ 0x7f then [Fin.ofNat v]
  else if v ≤ 0x7ff then [Fin.ofNat (0xC0 + v / 64), Fin.ofNat (0x80 + v % 64)]
  else if v ≤ 0xffff then
    [Fin.ofNat (0xE0 + v / 4096), Fin.ofNat (0x80 + v / 64 % 64), Fin.ofNat (0x80 + v % 64)]
  else
    [Fin.ofNat (0xF0 + v / 262144), Fin.ofNat (0x80 + v / 4096 % 64),
      Fin.ofNat (0x80 + v / 64 % 64), Fin.ofNat (0x80 + v % 64)]

/-- The bytes of a text: the Go string holding it. -/
def utf8 (s : String) : GoString :=
  s.data.flatMap utf8EncodeChar

/-- The verb `%d` of `fmt.Sprintf` on a non-negative integer: decimal digits. -/
def fmtNat (n : Nat) : GoString :=
  (Nat.toDigits 10 n).map (fun c => Fin.ofNat c.toNat)

/-- A continuation byte of UTF-8: `80` to `BF`. -/
def isCont (b : Byte) : Bool :=
  decide (0x80 ≤ b.val ∧ b.val ≤ 0xBF)

/-- The width of the rune a string starts with, as `utf8.DecodeRune` reads it,
and 0 where it reads an error of width 1: a byte that starts no well-formed
UTF-8 sequence (a stray continuation byte, an overlong or surrogate encoding, a
value above U+10FFFF, a sequence cut short). -/
def runeLen : GoString → Nat
  | [] => 0
  | b0 :: rest =>
    if b0.val < 0x80 then 1
    else if 0xC2 ≤ b0.val ∧ b0.val ≤ 0xDF then
      match rest with
      | b1 :: _ => if isCont b1 then 2 else 0
      | _ => 0
    else if 0xE0 ≤ b0.val ∧ b0.val ≤ 0xEF then
      match rest with
      | b1 :: b2 :: _ =>
        if (if b0.val = 0xE0 then 0xA0 else 0x80) ≤ b1.val ∧
            b1.val ≤ (if b0.val = 0xED then 0x9F else 0xBF) ∧ isCont b2 then 3
        else 0
      | _ => 0
    else if 0xF0 ≤ b0.val ∧ b0.val ≤ 0xF4 then
      match rest with
      | b1 :: b2 :: b3 :: _ =>
        if (if b0.val = 0xF0 then 0x90 else 0x80) ≤ b1.val ∧
            b1.val ≤ (if b0.val = 0xF4 then 0x8F else 0xBF) ∧ isCont b2 ∧ isCont b3 then 4
        else 0
      | _ => 0
    else 0

/-- The bytes of a string with every byte that starts no well-formed sequence
replaced by U+FFFD (`EF BF BD`); `n` bytes of a sequence already begun are
copied first. -/
def wireStringFrom : Nat → GoString → GoString
  | _, [] => []
  | n + 1, b :: rest => b :: wireStringFrom n rest
  | 0, b :: rest =>
    match runeLen (b :: rest) with
    | 0 => 0xEF :: 0xBF :: 0xBD :: wireStringFrom 0 rest
    | n + 1 => b :: wireStringFrom n rest

/-- A string as the DynamoDB client transmits it.  The request is JSON, and the
JSON encoder of the client writes U+FFFD for every byte that `utf8.DecodeRune`
reads as an error of width 1; the store receives the text so written.  A string
of well-formed UTF-8 is transmitted as it is. -/
def wireString (s : GoString) : GoString :=
  wireStringFrom 0 s

/-- Go `error` values.  `errorString` is what `errors.New` builds and stands for
any error without a chain; `wrapError` is an error that carries another one
(`fmt.Errorf` with `%w`, the operation errors of the AWS client), its message
being the text before the inner message; `ConditionalCheckFailedException` is
`*types.ConditionalCheckFailedException` of the DynamoDB client. -/
inductive GoError where
  | errorString (s : String)
  | wrapError (msg : String) (err : GoError)
  | ConditionalCheckFailedException (message : String)
deriving DecidableEq, Repr

namespace GoError

/-- The method `Error()`. -/
def Error : GoError → String
  | errorString s => s
  | wrapError msg err => msg ++ err.Error
  | ConditionalCheckFailedException message => "ConditionalCheckFailedException: " ++ message

/-- The function `errors.Unwrap`. -/
def Unwrap : GoError → Option GoError
  | wrapError _ err => some err
  | _ => none

/-- The call `errors.As(err, &ccf)` with `ccf` of type
`*types.ConditionalCheckFailedException`: walks the chain of `err`. -/
def AsConditionalCheckFailed : GoError → Bool
  | ConditionalCheckFailedException _ => true
  | wrapError _ err => err.AsConditionalCheckFailed
  | errorString _ => false

end GoError

/-- The call `fmt.Errorf(msg + "%w", err)`. -/
def Errorf (msg : String) (err : GoError) : GoError :=
  GoError.wrapError msg err

/-! ## scan_manager.ScanResult -/

/-- The struct `scan_manager.ScanResult`.  `Port` is a `uint32`, `Timestamp` an
`int64`, `DataVersion` an `int`. -/
structure ScanResult where
  IP : GoString
  Port : Nat
  Service : GoString
  Timestamp : Int
  Response : GoString
  DataVersion : Int
deriving DecidableEq, Repr

/-! ## The DynamoDB table -/

/-- An attribute value of the DynamoDB client: a string (`S`) or a number (`N`).
The client sends a number as its decimal text (`fmt.Sprintf("%d", x)`), which
the store reads back as the number `x`. -/
inductive AttributeValue where
  | S (Value : GoString)
  | N (Value : Int)
deriving DecidableEq, Repr

/-- An item of the table `scan-results`: the seven attributes `Put` writes. -/
structure Item where
  pk : GoString
  ip : GoString
  port : Int
  service : GoString
  timestamp : Int
  response : GoString
  data_version : Int
deriving DecidableEq, Repr

/-- The attribute of an item by name. -/
def Item.attr (it : Item) (name : String) : Option AttributeValue :=
  if name = "pk" then some (.S it.pk)
  else if name = "ip" then some (.S it.ip)
  else if name = "port" then some (.N it.port)
  else if name = "service" then some (.S it.service)
  else if name = "timestamp" then some (.N it.timestamp)
  else if name = "response" then some (.S it.response)
  else if name = "data_version" then some (.N it.data_version)
  else none

/-- The table `scan-results`, hash key `pk`: the item stored under each key. -/
abbrev Table := GoString → Option Item

/-- The table with no item. -/
def Table.empty : Table := fun _ => none

/-- The table after `item` is stored under `key`. -/
def Table.put (t : Table) (key : GoString) (item : Item) : Table :=
  fun k => if k = key then some item else t k

/-- An operand of a condition: an attribute path (a name, or a `#placeholder`)
or a `:value` placeholder. -/
inductive Operand where
  | path (name : String)
  | value (name : String)
deriving DecidableEq, Repr

/-- The condition expressions `Put` uses. -/
inductive Condition where
  | attribute_not_exists (path : String)
  | lt (a b : Operand)
  | or (a b : Condition)
deriving DecidableEq, Repr

/-- The struct `dynamodb.PutItemInput`, with the condition expression parsed. -/
structure PutItemInput where
  TableName : String
  Item : Item
  ConditionExpression : Condition
  ExpressionAttributeNames : List (String × String)
  ExpressionAttributeValues : List (String × AttributeValue)

/-- An attribute path with its `#placeholder` replaced. -/
def resolveName (names : List (String × String)) (p : String) : String :=
  match names.lookup p with
  | some n => n
  | none => p

/-- The value of an operand against the stored item, if it has one. -/
def Operand.eval (names : List (String × String)) (values : List (String × AttributeValue))
    (old : Option Item) : Operand → Option AttributeValue
  | .path p => old.bind (fun it => it.attr (resolveName names p))
  | .value v => values.lookup v

/-- The comparison `a < b` of DynamoDB: numbers by value, strings byte-wise,
false when an operand is missing or the types differ. -/
def ltAttr : Option AttributeValue → Option AttributeValue → Bool
  | some (.N a), some (.N b) => decide (a < b)
  | some (.S a), some (.S b) => decide (a < b)
  | _, _ => false

/-- A condition expression evaluated against the item stored under the key of
the request (`none` when there is no such item). -/
def Condition.eval (names : List (String × String)) (values : List (String × AttributeValue))
    (old : Option Item) : Condition → Bool
  | .attribute_not_exists p =>
    match old with
    | none => true
    | some it => (it.attr (resolveName names p)).isNone
  | .lt a b => ltAttr (a.eval names values old) (b.eval names values old)
  | .or a b => a.eval names values old || b.eval names values old

/-- The DynamoDB client as `Put` uses it: `PutItem` answers with an error or
not, and leaves a table. -/
structure Client where
  PutItem : Table → PutItemInput → Option GoError × Table

/-- The error of a rejected conditional write, as the client returns it: the
exception inside an operation error. -/
def conditionalCheckFailed : GoError :=
  .wrapError "operation error DynamoDB: PutItem, "
    (.ConditionalCheckFailedException "The conditional request failed")

/-- An attribute value as the client transmits it. -/
def wireValue : AttributeValue → AttributeValue
  | .S v => .S (wireString v)
  | .N v => .N v

/-- An item as the client transmits it: its strings as transmitted, its numbers
as they are. -/
def wireItem (it : Item) : Item :=
  { it with
    pk := wireString it.pk, ip := wireString it.ip, service := wireString it.service,
    response := wireString it.response }

/-- The conditional put of DynamoDB on a reachable table.  The store receives
the item and the values of the request as the client transmits them; the item
replaces what is stored under its key when the condition holds there, and the
request fails with a conditional-check failure, the table untouched, when it
does not. -/
def DynamoDB.client : Client where
  PutItem := fun t input =>
    if input.ConditionExpression.eval input.ExpressionAttributeNames
        (input.ExpressionAttributeValues.map (fun v => (v.1, wireValue v.2)))
        (t (wireItem input.Item).pk) then
      (none, t.put (wireItem input.Item).pk (wireItem input.Item))
    else
      (some conditionalCheckFailed, t)

/-! ## dynamodb.go -/

/-- The struct `dynamoDB`. -/
structure dynamoDB where
  client : Client

/-- The key `fmt.Sprintf("%s#%d#%s", result.IP, result.Port, result.Service)`. -/
def pkOf (IP : GoString) (Port : Nat) (Service : GoString) : GoString :=
  IP ++ [35] ++ fmtNat Port ++ [35] ++ Service

/-- The item `Put` builds from a result. -/
def itemOf (result : ScanResult) : Item where
  pk := pkOf result.IP result.Port result.Service
  ip := result.IP
  port := Int.ofNat result.Port
  service := result.Service
  timestamp := result.Timestamp
  response := result.Response
  data_version := result.DataVersion

/-- The request `Put` sends. -/
def putItemInput (result : ScanResult) : PutItemInput where
  TableName := "scan-results"
  Item := itemOf result
  ConditionExpression :=
    .or (.attribute_not_exists "pk") (.lt (.path "#ts") (.value ":new_ts"))
  ExpressionAttributeNames := [("#ts", "timestamp")]
  ExpressionAttributeValues := [(":new_ts", .N result.Timestamp)]

/-- The key under which the store files the item of a result: its composite
key as transmitted. -/
def keyOf (result : ScanResult) : GoString :=
  wireString (pkOf result.IP result.Port result.Service)

/-- The item of a result as the store receives it. -/
def storedItem (result : ScanResult) : Item :=
  wireItem (itemOf result)

/-- The method `(d *dynamoDB) Put`: the error it returns (`none` for `nil`) and
the table the client call leaves. -/
def dynamoDB.Put (d : dynamoDB) (t : Table) (result : ScanResult) : Option GoError × Table :=
  let input := putItemInput result
  match d.client.PutItem t input with
  | (some err, t') =>
    if err.AsConditionalCheckFailed then (none, t')
    else (some (Errorf "failed to put item to DynamoDB: " err), t')
  | (none, t') => (none, t')

/-- The repository the consumer builds: `dynamoDB` over a reachable table. -/
def store : dynamoDB := ⟨DynamoDB.client⟩

/-- The table after `store.Put`. -/
def putTable (t : Table) (result : ScanResult) : Table :=
  (store.Put t result).2

/-- The table after a sequence of `store.Put` calls, in order. -/
def putAll (t : Table) (results : List ScanResult) : Table :=
  results.foldl putTable t


/-! ## encoding/base64 -/

/-- The alphabet of `base64.StdEncoding`. -/
def encodeStd : List Char :=
  "ABCDEFGHIJKLMNOPQRSTUVWXYZabcdefghijklmnopqrstuvwxyz0123456789+/".data

/-- The character of a six-bit value. -/
def encodeSextet (n : Nat) : Char :=
  encodeStd.getD n 'A'

/-- The six-bit value of a character of the alphabet (the `decodeMap`). -/
def decodeSextet (c : Char) : Option Nat :=
  if encodeStd.indexOf c < 64 then some (encodeStd.indexOf c) else none

/-- The function `base64.StdEncoding.EncodeToString`: three bytes to four characters, the
last group padded with `=`. -/
def EncodeToString : List Byte → List Char
  | a :: b :: c :: rest =>
    encodeSextet (a.val / 4) :: encodeSextet (a.val % 4 * 16 + b.val / 16) ::
      encodeSextet (b.val % 16 * 4 + c.val / 64) :: encodeSextet (c.val % 64) ::
      EncodeToString rest
  | [a, b] =>
    [encodeSextet (a.val / 4), encodeSextet (a.val % 4 * 16 + b.val / 16),
      encodeSextet (b.val % 16 * 4), '=']
  | [a] => [encodeSextet (a.val / 4), encodeSextet (a.val % 4 * 16), '=', '=']
  | [] => []

/-- The bytes of a quantum, from its first `n` six-bit values. -/
def quantumBytes (d0 d1 d2 d3 : Nat) (n : Nat) : List Byte :=
  ([Fin.ofNat (d0 * 4 + d1 / 16), Fin.ofNat (d1 % 16 * 16 + d2 / 4),
    Fin.ofNat (d2 % 4 * 64 + d3)] : List Byte).take n

/-- The quanta of a base64 text without line breaks: four characters of the
alphabet each, the last one possibly ending in `=` or `==`, nothing after the
padding and no quantum cut short. -/
def decodeQuanta : List Char → Option (List Byte)
  | [] => some []
  | [c0, c1, c2, c3] =>
    match decodeSextet c0, decodeSextet c1 with
    | some d0, some d1 =>
      match decodeSextet c2, decodeSextet c3 with
      | some d2, some d3 => some (quantumBytes d0 d1 d2 d3 3)
      | some d2, none => if c3 = '=' then some (quantumBytes d0 d1 d2 0 2) else none
      | none, _ => if c2 = '=' ∧ c3 = '=' then some (quantumBytes d0 d1 0 0 1) else none
    | _, _ => none
  | c0 :: c1 :: c2 :: c3 :: rest =>
    match decodeSextet c0, decodeSextet c1, decodeSextet c2, decodeSextet c3 with
    | some d0, some d1, some d2, some d3 =>
      (decodeQuanta rest).map (fun bs => quantumBytes d0 d1 d2 d3 3 ++ bs)
    | _, _, _, _ => none
  | _ => none

/-- The function `base64.StdEncoding.Decode`: carriage returns and line feeds are skipped,
the rest is read quantum by quantum; `none` is a `CorruptInputError`. -/
def DecodeString (s : List Char) : Option (List Byte) :=
  decodeQuanta (s.filter (fun c => c != Char.ofNat 10 && c != Char.ofNat 13))

/-! ## encoding/json -/

/-- A JSON number as written: an integer literal (an optional minus sign and
digits), or a literal with a fraction or an exponent. -/
inductive JNumber where
  | int (neg : Bool) (mag : Nat)
  | real (literal : String)
deriving DecidableEq, Repr

/-- The integer an integer literal denotes. -/
def JNumber.intValue : JNumber → Option Int
  | .int neg mag => some (if neg then -(mag : Int) else (mag : Int))
  | .real _ => none

/-- A JSON value, the members of an object in the order of the text. -/
inductive Json where
  | null
  | bool (b : Bool)
  | num (n : JNumber)
  | str (s : String)
  | arr (elems : List Json)
  | obj (members : List (String × Json))

/-- A byte buffer as the scanner of `encoding/json` sees it: text that is not
well-formed JSON, or the value the text denotes. -/
inductive Payload where
  | malformed
  | wellFormed (j : Json)

/-- What `encoding/json` does with numbers that pass through `float64`, taken
as given: `inRange n` says `strconv.ParseFloat` accepts the literal (it does
not overflow), and `bytesOfArray old elems` is the outcome of decoding a JSON
array into a `[]byte` that held `old`. -/
structure Float64Rules where
  inRange : JNumber → Bool
  bytesOfArray : GoString → List Json → Except GoError GoString

mutual
/-- A value can be stored in an `interface{}`: every number in it is in range
for `float64`. -/
def Json.storable (fl : Float64Rules) : Json → Bool
  | .num n => fl.inRange n
  | .arr elems => Json.storableElems fl elems
  | .obj members => Json.storableMembers fl members
  | _ => true
/-- Every element can be stored in an `interface{}`. -/
def Json.storableElems (fl : Float64Rules) : List Json → Bool
  | [] => true
  | x :: xs => x.storable fl && Json.storableElems fl xs
/-- Every member can be stored in an `interface{}`. -/
def Json.storableMembers (fl : Float64Rules) : List (String × Json) → Bool
  | [] => true
  | (_, x) :: ms => x.storable fl && Json.storableMembers fl ms
end

/-- The smallest rune of the case-folding orbit of a rune, for the orbits that
hold an ASCII letter: the letters themselves, the long s (U+017F) with `S` and
the Kelvin sign (U+212A) with `K`.  Every other rune folds to a rune outside
ASCII and is left as it is. -/
def foldRune (c : Char) : Char :=
  if 'a' ≤ c ∧ c ≤ 'z' then Char.ofNat (c.toNat - 32)
  else if c = Char.ofNat 0x17F then 'S'
  else if c = Char.ofNat 0x212A then 'K'
  else c

/-- The function `foldName`: two keys name the same struct field when their
folded names are equal. -/
def foldName (key : String) : List Char :=
  key.data.map foldRune

/-- A `SyntaxError` of `encoding/json`. -/
def SyntaxError : GoError := .errorString "invalid character in JSON text"

/-- An `UnmarshalTypeError` of `encoding/json`: the JSON value `value` does not
fit the Go type `type`. -/
def UnmarshalTypeError (value type : String) : GoError :=
  .errorString ("json: cannot unmarshal " ++ value ++ " into Go value of type " ++ type)

/-- A `base64.CorruptInputError`. -/
def CorruptInputError : GoError := .errorString "illegal base64 data"

/-- The kind of a JSON value, as error messages name it. -/
def Json.kind : Json → String
  | .null => "null"
  | .bool _ => "bool"
  | .num _ => "number"
  | .str _ => "string"
  | .arr _ => "array"
  | .obj _ => "object"

/-- A JSON value decoded into a `string` that holds `old`: `null` leaves it. -/
def decodeString (old : GoString) : Json → Except GoError GoString
  | .null => .ok old
  | .str s => .ok (utf8 s)
  | j => .error (UnmarshalTypeError j.kind "string")

/-- A JSON value decoded into an unsigned integer of `bits` bits that holds
`old`: an integer literal without sign and in range; `null` leaves it. -/
def decodeUint (bits : Nat) (old : Nat) : Json → Except GoError Nat
  | .null => .ok old
  | .num (.int false mag) =>
    if mag < 2 ^ bits then .ok mag else .error (UnmarshalTypeError "number" "uint")
  | j => .error (UnmarshalTypeError j.kind "uint")

/-- A JSON value decoded into a signed integer of `bits` bits that holds `old`:
an integer literal in range; `null` leaves it. -/
def decodeInt (bits : Nat) (old : Int) : Json → Except GoError Int
  | .null => .ok old
  | .num (.int neg mag) =>
    let v : Int := if neg then -(mag : Int) else (mag : Int)
    if -(2 ^ (bits - 1) : Int) ≤ v ∧ v < (2 ^ (bits - 1) : Int) then .ok v
    else .error (UnmarshalTypeError "number" "int")
  | j => .error (UnmarshalTypeError j.kind "int")

/-- A JSON value decoded into an `interface{}`: `null` gives `nil`, any other
value is stored unless a number in it overflows `float64`. -/
def decodeInterface (fl : Float64Rules) : Json → Except GoError (Option Json)
  | .null => .ok none
  | j => if j.storable fl then .ok (some j) else .error (UnmarshalTypeError "number" "float64")

/-- A JSON value decoded into a `[]byte` that holds `old`: a string is read as
base64, `null` gives the nil slice, an array is decoded element by element. -/
def decodeBytes (fl : Float64Rules) (old : GoString) : Json → Except GoError GoString
  | .null => .ok []
  | .str s =>
    match DecodeString s.data with
    | some bs => .ok bs
    | none => .error CorruptInputError
  | .arr elems => fl.bytesOfArray old elems
  | j => .error (UnmarshalTypeError j.kind "[]uint8")

/-! ## pkg/scanning -/

/-- Modelled from the spec: the constant `scanning.V1` of package `pkg/scanning`,
the version tag 1 of the inbound envelope. -/
def V1 : Int := 1

/-- Modelled from the spec: the constant `scanning.V2` of package `pkg/scanning`,
the version tag 2 of the inbound envelope. -/
def V2 : Int := 2

/-- Modelled from the spec: the struct `scanning.Scan` of package `pkg/scanning`,
the inbound envelope with the JSON names `ip` (string), `port` (uint32),
`service` (string), `timestamp` (int64), `data_version` (int) and `data` (an
`interface{}`, `none` for `nil`). -/
structure Scan where
  Ip : GoString
  Port : Nat
  Service : GoString
  Timestamp : Int
  DataVersion : Int
  Data : Option Json

/-- Modelled from the spec: the struct `scanning.V1Data` of package
`pkg/scanning`, the version 1 data with the JSON name `response_bytes_utf8`
(a `[]byte`, read from a base64 string). -/
structure V1Data where
  ResponseBytesUtf8 : GoString

/-- Modelled from the spec: the struct `scanning.V2Data` of package
`pkg/scanning`, the version 2 data with the JSON name `response_str`. -/
structure V2Data where
  ResponseStr : GoString

/-- The zero value of `Scan`. -/
def Scan.zero : Scan := ⟨[], 0, [], 0, 0, none⟩

/-- One member of a JSON object decoded into a `Scan`: the member sets the
field whose name folds to its key, and is skipped when there is none. -/
def Scan.decodeMember (fl : Float64Rules) (scan : Scan) (m : String × Json) : Except GoError Scan :=
  if foldName m.1 = foldName "ip" then
    (decodeString scan.Ip m.2).map (fun v => { scan with Ip := v })
  else if foldName m.1 = foldName "port" then
    (decodeUint 32 scan.Port m.2).map (fun v => { scan with Port := v })
  else if foldName m.1 = foldName "service" then
    (decodeString scan.Service m.2).map (fun v => { scan with Service := v })
  else if foldName m.1 = foldName "timestamp" then
    (decodeInt 64 scan.Timestamp m.2).map (fun v => { scan with Timestamp := v })
  else if foldName m.1 = foldName "data_version" then
    (decodeInt 64 scan.DataVersion m.2).map (fun v => { scan with DataVersion := v })
  else if foldName m.1 = foldName "data" then
    (decodeInterface fl m.2).map (fun v => { scan with Data := v })
  else .ok scan

/-- The call `json.Unmarshal(data, &scan)` on a zero `Scan`: a syntax error for
text that is not JSON, nothing to do for `null`, the members in order for an
object, a type error for every other value. -/
def Unmarshal_Scan (fl : Float64Rules) : Payload → Except GoError Scan
  | .malformed => .error SyntaxError
  | .wellFormed .null => .ok Scan.zero
  | .wellFormed (.obj members) => members.foldlM (Scan.decodeMember fl) Scan.zero
  | .wellFormed j => .error (UnmarshalTypeError j.kind "scanning.Scan")

/-- One member of a JSON object decoded into a `V1Data`. -/
def V1Data.decodeMember (fl : Float64Rules) (v1 : V1Data) (m : String × Json) :
    Except GoError V1Data :=
  if foldName m.1 = foldName "response_bytes_utf8" then
    (decodeBytes fl v1.ResponseBytesUtf8 m.2).map (fun v => { v1 with ResponseBytesUtf8 := v })
  else .ok v1

/-- The call `json.Unmarshal(dataBytes, &v1)` on a zero `V1Data`. -/
def Unmarshal_V1Data (fl : Float64Rules) : Payload → Except GoError V1Data
  | .malformed => .error SyntaxError
  | .wellFormed .null => .ok ⟨[]⟩
  | .wellFormed (.obj members) => members.foldlM (V1Data.decodeMember fl) ⟨[]⟩
  | .wellFormed j => .error (UnmarshalTypeError j.kind "scanning.V1Data")

/-- One member of a JSON object decoded into a `V2Data`. -/
def V2Data.decodeMember (v2 : V2Data) (m : String × Json) : Except GoError V2Data :=
  if foldName m.1 = foldName "response_str" then
    (decodeString v2.ResponseStr m.2).map (fun v => { v2 with ResponseStr := v })
  else .ok v2

/-- The call `json.Unmarshal(dataBytes, &v2)` on a zero `V2Data`. -/
def Unmarshal_V2Data : Payload → Except GoError V2Data
  | .malformed => .error SyntaxError
  | .wellFormed .null => .ok ⟨[]⟩
  | .wellFormed (.obj members) => members.foldlM V2Data.decodeMember ⟨[]⟩
  | .wellFormed j => .error (UnmarshalTypeError j.kind "scanning.V2Data")

/-- The members of a Go map built from the members of a JSON object: one per
key, the last one written. -/
def mapMembers : List (String × Json) → List (String × Json)
  | [] => []
  | m :: ms => if ms.any (fun m' => m'.1 = m.1) then mapMembers ms else m :: mapMembers ms

/-- The call `json.Marshal(scan.Data)` on a value that `Unmarshal` stored in an
`interface{}`; it cannot fail.  An object was stored as a map, and a map is
written with its keys sorted byte-wise.  Values below the top level are left as
they are: the decoders of `V1Data` and `V2Data` look into no nested object. -/
def Marshal : Json → Payload
  | .obj members =>
    .wellFormed (.obj ((mapMembers members).insertionSort
      (fun a b => ¬ (utf8 b.1 < utf8 a.1))))
  | j => .wellFormed j

/-! ## serializer.go -/

/-- The function `ParseScanMessage`: the result, or the error it returns with
no result. -/
def ParseScanMessage (fl : Float64Rules) (data : Payload) : Except GoError ScanResult :=
  match Unmarshal_Scan fl data with
  | .error err => .error (Errorf "failed to unmarshal scan data: " err)
  | .ok scan =>
    match scan.Data with
    | none => .error (.errorString "scan data is nil")
    | some d =>
      let dataBytes := Marshal d
      if scan.DataVersion = V1 then
        match Unmarshal_V1Data fl dataBytes with
        | .error err => .error (Errorf "failed to unmarshal V1 data: " err)
        | .ok v1 =>
          .ok { IP := scan.Ip, Port := scan.Port, Service := scan.Service,
                Timestamp := scan.Timestamp, Response := v1.ResponseBytesUtf8,
                DataVersion := scan.DataVersion }
      else if scan.DataVersion = V2 then
        match Unmarshal_V2Data dataBytes with
        | .error err => .error (Errorf "failed to unmarshal V2 data: " err)
        | .ok v2 =>
          .ok { IP := scan.Ip, Port := scan.Port, Service := scan.Service,
                Timestamp := scan.Timestamp, Response := v2.ResponseStr,
                DataVersion := scan.DataVersion }
      else .error (.errorString ("unknown data version: " ++ toString scan.DataVersion))

/-- A `Float64Rules` for values without arrays of numbers: every integer literal is
in range, and no array is accepted as bytes. -/
def Float64Rules.plain : Float64Rules where
  inRange := fun _ => true
  bytesOfArray := fun _ _ => .error (UnmarshalTypeError "number" "uint8")

/-! ## The write rule in the spec's words -/

/-- The conditional-write predicate in the spec's words: accept the write iff
no record exists at the key or the stored timestamp is below the incoming one.
The key is the one the store files the result under. -/
def specAccept (t : Table) (r : ScanResult) : Bool :=
  match t (keyOf r) with
  | none => true
  | some old => decide (old.timestamp < r.Timestamp)

/-- The greatest timestamp among the results of a sequence that carry the
identity tuple `(IP, Port, Service)`; `none` when there is no such result. -/
def specMaxTimestamp (IP : GoString) (Port : Nat) (Service : GoString) :
    List ScanResult → Option Int
  | [] => none
  | r :: rs =>
    if r.IP = IP ∧ r.Port = Port ∧ r.Service = Service then
      match specMaxTimestamp IP Port Service rs with
      | none => some r.Timestamp
      | some m => some (max r.Timestamp m)
    else specMaxTimestamp IP Port Service rs

/-- A client whose every request fails before it reaches the table. -/
def Client.unreachable : Client where
  PutItem := fun t _ =>
    (some (.wrapError "operation error DynamoDB: PutItem, "
      (.errorString "dial tcp: connection refused")), t)


/-! ## The envelope in the spec's words -/

/-- The members of a JSON object that set the struct field with the JSON name
`name`. -/
def membersFor (name : String) (members : List (String × Json)) : List (String × Json) :=
  members.filter (fun m => decide (foldName m.1 = foldName name))

/-- What an `interface{}` holds after a JSON value is decoded into it: `nil` for
`null`, the value otherwise. -/
def Json.nonNull : Json → Option Json
  | .null => none
  | j => some j

/-- The integer literal that writes an integer. -/
def JNumber.ofInt (v : Int) : JNumber :=
  .int (decide (v < 0)) v.natAbs

/-- A well-formed inbound message in the spec's words: a JSON object with
exactly one member for each of `ip` (a string), `port` (an unsigned integer of
32 bits), `service` (a string), `timestamp` (an integer of 64 bits),
`data_version` and `data` (an object whose numbers, if any, fit `float64`),
whatever other members it has; under version 1 the data has exactly one
`response_bytes_utf8`, a base64 string that decodes to `response`, and under
version 2 exactly one `response_str`, a string whose text is `response`. -/
def WellFormedMessage (fl : Float64Rules) (members : List (String × Json)) (ip : String) (port : Nat)
    (service : String) (timestamp : Int) (data_version : Int) (response : GoString) : Prop :=
  membersFor "ip" members = [("ip", .str ip)] ∧
  (membersFor "port" members = [("port", .num (.int false port))] ∧ port < 2 ^ 32) ∧
  membersFor "service" members = [("service", .str service)] ∧
  (∃ n, membersFor "timestamp" members = [("timestamp", .num n)] ∧
    n.intValue = some timestamp ∧ -(2 ^ 63 : Int) ≤ timestamp ∧ timestamp < (2 ^ 63 : Int)) ∧
  (∃ n, membersFor "data_version" members = [("data_version", .num n)] ∧
    n.intValue = some data_version) ∧
  ∃ data, membersFor "data" members = [("data", .obj data)] ∧
    (Json.obj data).storable fl = true ∧
    ((data_version = 1 ∧ ∃ b64, membersFor "response_bytes_utf8" data
        = [("response_bytes_utf8", .str b64)] ∧ DecodeString b64.data = some response) ∨
     (data_version = 2 ∧ ∃ s, membersFor "response_str" data = [("response_str", .str s)] ∧
        response = utf8 s))

/-- The message of the spec's envelope, its members in the order of the spec. -/
def envelope (ip : String) (port : Nat) (service : String) (timestamp : Int)
    (data_version : Nat) (data : Json) : Payload :=
  .wellFormed (.obj [("ip", .str ip), ("port", .num (.int false port)),
    ("service", .str service), ("timestamp", .num (JNumber.ofInt timestamp)),
    ("data_version", .num (.int false data_version)), ("data", data)])

/-! ## manager.go -/

/-- The interface `scan_manager.Repository` over a backing state `σ`: `Put`
answers with an error or not, and leaves a state. -/
structure Repository (σ : Type) where
  Put : σ → ScanResult → Option GoError × σ

/-- The struct `ScanManagerConfig`: `Repo` is `none` for a nil repository. -/
structure ScanManagerConfig (σ : Type) where
  Repo : Option (Repository σ)

/-- The struct `scanManager`. -/
structure scanManager (σ : Type) where
  repo : Repository σ

/-- The function `NewScanManager`: `none` is a nil config. -/
def NewScanManager {σ : Type} (cfg : Option (ScanManagerConfig σ)) :
    Except GoError (scanManager σ) :=
  match cfg with
  | none => .error (.errorString "config is nil")
  | some cfg =>
    match cfg.Repo with
    | none => .error (.errorString "repository is nil")
    | some repo => .ok { repo := repo }

/-- The verb `%d` of `fmt` on a signed integer. -/
def fmtInt (v : Int) : GoString :=
  if v < 0 then 45 :: fmtNat v.natAbs else fmtNat v.natAbs

/-- The verb `%+v` of `fmt` on a `*ScanResult`: the fields with their names. -/
def fmtPlusV (result : ScanResult) : GoString :=
  utf8 "&\x7bIP:" ++ result.IP ++ utf8 " Port:" ++ fmtNat result.Port ++
    utf8 " Service:" ++ result.Service ++ utf8 " Timestamp:" ++ fmtInt result.Timestamp ++
    utf8 " Response:" ++ result.Response ++ utf8 " DataVersion:" ++
    fmtInt result.DataVersion ++ utf8 "\x7d"

/-- The method `(m *scanManager) PutScan`: the error it returns (`none` for
`nil`), the state the repository is left in, and what it prints. -/
def scanManager.PutScan {σ : Type} (m : scanManager σ) (s : σ) (result : ScanResult) :
    Option GoError × σ × List GoString :=
  match m.repo.Put s result with
  | (some err, s') => (some (Errorf "failed to put scan: " err), s', [])
  | (none, s') =>
    (none, s', [utf8 "scan result stored: " ++ fmtPlusV result ++ [10]])

/-- The repository `dynamoDB` is: its `Put` on the table. -/
def dynamoDB.Repository (d : dynamoDB) : Repository Table where
  Put := d.Put

/-- The repository `MockRepository` of `manger_test.go`: it has no state, and
fails when told to. -/
def MockRepository (ShouldFail : Bool) : Repository Unit where
  Put := fun s _ =>
    if ShouldFail then (some (.errorString "repository error"), s) else (none, s)

/-- A repository that also keeps the list of the results `Put` was called
with, in order. -/
def Repository.recording {σ : Type} (repo : Repository σ) :
    Repository (σ × List ScanResult) where
  Put := fun s result =>
    ((repo.Put s.1 result).1, ((repo.Put s.1 result).2, s.2 ++ [result]))

/-! ## consumer.go -/

/-- A `pubsub.Message`, as the handler reads it: the body. -/
structure Message where
  Data : Payload

/-- The calls the handler makes on a message: `msg.Ack()` and `msg.Nack()`. -/
inductive Acknowledgement where
  | Ack
  | Nack
deriving DecidableEq, Repr

/-- The method `Add(1)` of an `atomic.Int64`: it wraps around. -/
def addOne (x : Int) : Int :=
  (x + 1 + 2 ^ 63) % 2 ^ 64 - 2 ^ 63

/-- What the handler of `runConsumer` works on: the state behind the
repository, the counters `processed` and `failed`, and the standard output. -/
structure Consumer (σ : Type) where
  repo : σ
  processed : Int
  failed : Int
  stdout : List GoString

/-- The handler `runConsumer` passes to `sub.Receive`, on one delivered
message: the consumer afterwards, and the calls made on the message, in order. -/
def runConsumer.handler {σ : Type} (fl : Float64Rules) (manager : scanManager σ)
    (c : Consumer σ) (msg : Message) : Consumer σ × List Acknowledgement :=
  match ParseScanMessage fl msg.Data with
  | .error err =>
    ({ c with
        stdout := c.stdout ++ [utf8 ("Error parsing scan message: " ++ err.Error) ++ [10]],
        failed := addOne c.failed },
      [.Nack])
  | .ok result =>
    match manager.PutScan c.repo result with
    | (some err, s', out) =>
      ({ c with
          repo := s',
          stdout := c.stdout ++ out ++ [utf8 ("Error storing scan: " ++ err.Error) ++ [10]],
          failed := addOne c.failed },
        [.Nack])
    | (none, s', out) =>
      ({ c with
          repo := s',
          stdout := c.stdout ++ out,
          processed := addOne c.processed },
        [.Ack])

/-- The manager `runConsumer` builds: over the DynamoDB store. -/
def manager : scanManager Table := { repo := store.Repository }

/-- A consumer that has handled nothing yet, on a given state of the store. -/
def Consumer.start {σ : Type} (s : σ) : Consumer σ :=
  { repo := s, processed := 0, failed := 0, stdout := [] }

/-! ## Strings as the client transmits them -/

theorem runeLen_le_length (s : GoString) : runeLen s ≤ s.length := by
  match s with
  | [] => simp [runeLen]
  | [b0] =>
    simp only [runeLen, List.length_singleton]
    split_ifs <;> omega
  | [b0, b1] =>
    simp only [runeLen, List.length_cons, List.length_nil]
    split_ifs <;> omega
  | [b0, b1, b2] =>
    simp only [runeLen, List.length_cons, List.length_nil]
    split_ifs <;> omega
  | b0 :: b1 :: b2 :: b3 :: rest =>
    simp only [runeLen, List.length_cons]
    split_ifs <;> omega

/-- The width of the first rune does not depend on what follows it. -/
theorem runeLen_append (s b : GoString) (h : runeLen s ≠ 0) :
    runeLen (s ++ b) = runeLen s := by
  match s with
  | [] => simp [runeLen] at h
  | [b0] =>
    simp only [runeLen] at h ⊢
    simp only [List.singleton_append, runeLen]
    split_ifs at h ⊢ <;> first | rfl | exact absurd rfl h
  | [b0, b1] =>
    simp only [runeLen] at h ⊢
    simp only [List.cons_append, List.nil_append, runeLen]
    split_ifs at h ⊢ <;> first | rfl | exact absurd rfl h
  | [b0, b1, b2] =>
    simp only [runeLen] at h ⊢
    simp only [List.cons_append, List.nil_append, runeLen]
    split_ifs at h ⊢ <;> first | rfl | exact absurd rfl h
  | b0 :: b1 :: b2 :: b3 :: rest =>
    simp only [List.cons_append, runeLen]

theorem wireStringFrom_zero_cons (b : Byte) (rest : GoString) :
    wireStringFrom 0 (b :: rest) =
      match runeLen (b :: rest) with
      | 0 => 0xEF :: 0xBF :: 0xBD :: wireStringFrom 0 rest
      | n + 1 => b :: wireStringFrom n rest := by
  simp only [wireStringFrom]

theorem wireStringFrom_succ_cons (n : Nat) (b : Byte) (rest : GoString) :
    wireStringFrom (n + 1) (b :: rest) = b :: wireStringFrom n rest := by
  simp only [wireStringFrom]

/-- Nothing is lost in transmission: the transmitted string is no shorter. -/
theorem length_wireStringFrom (s : GoString) : ∀ n, s.length ≤ (wireStringFrom n s).length := by
  induction s with
  | nil => intro n; cases n <;> simp [wireStringFrom]
  | cons b rest ih =>
    intro n
    cases n with
    | succ n =>
      rw [wireStringFrom_succ_cons]
      simp only [List.length_cons]
      exact Nat.succ_le_succ (ih n)
    | zero =>
      rw [wireStringFrom_zero_cons]
      cases runeLen (b :: rest) with
      | zero =>
        simp only [List.length_cons]
        have := ih 0
        omega
      | succ m =>
        simp only [List.length_cons]
        exact Nat.succ_le_succ (ih m)

/-- A string that is transmitted as it is, is transmitted as it is before any
other string. -/
theorem wireStringFrom_append (a : GoString) : ∀ (n : Nat) (b : GoString), n ≤ a.length →
    wireStringFrom n a = a → wireStringFrom n (a ++ b) = a ++ wireStringFrom 0 b := by
  induction a with
  | nil =>
    intro n b hn _
    have : n = 0 := by simpa using hn
    subst this
    rfl
  | cons x a ih =>
    intro n b hn h
    cases n with
    | succ n =>
      rw [wireStringFrom_succ_cons] at h
      rw [List.cons_append, wireStringFrom_succ_cons,
        ih n b (by simpa using hn) (by injection h)]
      rfl
    | zero =>
      rw [wireStringFrom_zero_cons] at h
      rw [List.cons_append, wireStringFrom_zero_cons]
      cases hr : runeLen (x :: a) with
      | zero =>
        rw [hr] at h
        have h1 := congrArg List.length h
        have h2 := length_wireStringFrom a 0
        simp only [List.length_cons] at h1
        omega
      | succ m =>
        rw [hr] at h
        have hx : runeLen (x :: (a ++ b)) = m + 1 := by
          have := runeLen_append (x :: a) b (by rw [hr]; omega)
          rw [hr] at this
          exact this
        rw [hx]
        have hm : m ≤ a.length := by
          have := runeLen_le_length (x :: a)
          rw [hr] at this
          simpa using this
        have ha : wireStringFrom m a = a := by
          have h' : x :: wireStringFrom m a = x :: a := h
          injection h'
        show x :: wireStringFrom m (a ++ b) = x :: a ++ wireStringFrom 0 b
        rw [ih m b hm ha]
        rfl

theorem wireString_append (a b : GoString) (h : wireString a = a) :
    wireString (a ++ b) = a ++ wireString b :=
  wireStringFrom_append a 0 b (Nat.zero_le _) h

/-- A string of ASCII is transmitted as it is. -/
theorem wireString_ascii (s : GoString) (h : ∀ b ∈ s, b.val < 0x80) : wireString s = s := by
  induction s with
  | nil => rfl
  | cons b rest ih =>
    have hb : b.val < 0x80 := h b (by simp)
    have hr : runeLen (b :: rest) = 1 := by simp [runeLen, hb]
    show wireStringFrom 0 (b :: rest) = b :: rest
    rw [wireStringFrom_zero_cons, hr]
    show b :: wireStringFrom 0 rest = b :: rest
    rw [show wireStringFrom 0 rest = rest from ih (fun c hc => h c (by simp [hc]))]

/-- Two strings that are transmitted as they are, are so one after the other. -/
theorem wireString_append_valid (a b : GoString) (ha : wireString a = a)
    (hb : wireString b = b) : wireString (a ++ b) = a ++ b := by
  rw [wireString_append a b ha, hb]

theorem wireStringFrom_length (s : GoString) : wireStringFrom s.length s = s := by
  induction s with
  | nil => rfl
  | cons b rest ih =>
    rw [List.length_cons, wireStringFrom_succ_cons, ih]

/-- One well-formed sequence is transmitted as it is. -/
theorem wireString_of_runeLen (b : Byte) (rest : GoString)
    (h : runeLen (b :: rest) = rest.length + 1) : wireString (b :: rest) = b :: rest := by
  show wireStringFrom 0 (b :: rest) = b :: rest
  rw [wireStringFrom_zero_cons, h]
  show b :: wireStringFrom rest.length rest = b :: rest
  rw [wireStringFrom_length]

theorem val_ofNat (n : Nat) : (Fin.ofNat n : Byte).val = n % 256 := rfl

/-- The UTF-8 encoding of a code point is transmitted as it is. -/
theorem wireString_utf8EncodeChar (c : Char) :
    wireString (utf8EncodeChar c) = utf8EncodeChar c := by
  have hv : c.toNat < 0xd800 ∨ (0xdfff < c.toNat ∧ c.toNat < 0x110000) := c.valid
  unfold utf8EncodeChar
  simp only []
  generalize c.toNat = v at hv
  by_cases h1 : v ≤ 0x7f
  · rw [if_pos h1]
    apply wireString_ascii
    intro b hb
    have : b = Fin.ofNat v := by simpa using hb
    rw [this, val_ofNat]
    omega
  · rw [if_neg h1]
    by_cases h2 : v ≤ 0x7ff
    · rw [if_pos h2]
      apply wireString_of_runeLen
      simp only [runeLen, isCont, val_ofNat, List.length_singleton]
      have e1 : ¬ ((0xC0 + v / 64) % 256 < 0x80) := by omega
      have e2 : 0xC2 ≤ (0xC0 + v / 64) % 256 ∧ (0xC0 + v / 64) % 256 ≤ 0xDF := by omega
      have e3 : 0x80 ≤ (0x80 + v % 64) % 256 ∧ (0x80 + v % 64) % 256 ≤ 0xBF := by omega
      simp only [e1, e2, e3, if_false, if_true, and_self, decide_True]
    · rw [if_neg h2]
      by_cases h3 : v ≤ 0xffff
      · rw [if_pos h3]
        apply wireString_of_runeLen
        simp only [runeLen, isCont, val_ofNat, List.length_cons, List.length_nil]
        have e1 : ¬ ((0xE0 + v / 4096) % 256 < 0x80) := by omega
        have e2 : ¬ (0xC2 ≤ (0xE0 + v / 4096) % 256 ∧ (0xE0 + v / 4096) % 256 ≤ 0xDF) := by
          omega
        have e3 : 0xE0 ≤ (0xE0 + v / 4096) % 256 ∧ (0xE0 + v / 4096) % 256 ≤ 0xEF := by omega
        have e4 : (if (0xE0 + v / 4096) % 256 = 0xE0 then 0xA0 else 0x80)
            ≤ (0x80 + v / 64 % 64) % 256 ∧
            (0x80 + v / 64 % 64) % 256 ≤ (if (0xE0 + v / 4096) % 256 = 0xED then 0x9F else 0xBF)
            ∧ decide (0x80 ≤ (0x80 + v % 64) % 256 ∧ (0x80 + v % 64) % 256 ≤ 0xBF) = true := by
          refine ⟨?_, ?_, ?_⟩
          · split_ifs <;> omega
          · split_ifs <;> omega
          · rw [decide_eq_true_iff]
            omega
        simp only [e1, e2, e3, e4, if_false, if_true, and_self]
      · rw [if_neg h3]
        apply wireString_of_runeLen
        simp only [runeLen, isCont, val_ofNat, List.length_cons, List.length_nil]
        have e1 : ¬ ((0xF0 + v / 262144) % 256 < 0x80) := by omega
        have e2 : ¬ (0xC2 ≤ (0xF0 + v / 262144) % 256 ∧ (0xF0 + v / 262144) % 256 ≤ 0xDF) := by
          omega
        have e3 : ¬ (0xE0 ≤ (0xF0 + v / 262144) % 256 ∧ (0xF0 + v / 262144) % 256 ≤ 0xEF) := by
          omega
        have e4 : 0xF0 ≤ (0xF0 + v / 262144) % 256 ∧ (0xF0 + v / 262144) % 256 ≤ 0xF4 := by
          omega
        have e5 : (if (0xF0 + v / 262144) % 256 = 0xF0 then 0x90 else 0x80)
            ≤ (0x80 + v / 4096 % 64) % 256 ∧
            (0x80 + v / 4096 % 64) % 256
              ≤ (if (0xF0 + v / 262144) % 256 = 0xF4 then 0x8F else 0xBF) ∧
            decide (0x80 ≤ (0x80 + v / 64 % 64) % 256 ∧ (0x80 + v / 64 % 64) % 256 ≤ 0xBF)
              = true ∧
            decide (0x80 ≤ (0x80 + v % 64) % 256 ∧ (0x80 + v % 64) % 256 ≤ 0xBF) = true := by
          refine ⟨?_, ?_, ?_, ?_⟩
          · split_ifs <;> omega
          · split_ifs <;> omega
          · rw [decide_eq_true_iff]
            omega
          · rw [decide_eq_true_iff]
            omega
        simp only [e1, e2, e3, e4, e5, if_false, if_true, and_self]

/-- A text is transmitted as it is. -/
theorem wireString_utf8 (s : String) : wireString (utf8 s) = utf8 s := by
  unfold utf8
  induction s.data with
  | nil => rfl
  | cons c cs ih =>
    rw [List.flatMap_cons]
    exact wireString_append_valid _ _ (wireString_utf8EncodeChar c) ih
/-! ## The stored write rule -/

/-- The condition `Put` sends, evaluated by the store: true on a free key, and
on a taken key exactly when the stored timestamp is below the incoming one. -/
theorem condition_eval (r : ScanResult) (old : Option Item) :
    (putItemInput r).ConditionExpression.eval (putItemInput r).ExpressionAttributeNames
      ((putItemInput r).ExpressionAttributeValues.map (fun v => (v.1, wireValue v.2))) old
      = match old with
        | none => true
        | some it => decide (it.timestamp < r.Timestamp) := by
  cases old with
  | none => simp [putItemInput, Condition.eval]
  | some it =>
    simp [putItemInput, Condition.eval, Operand.eval, resolveName, List.lookup, Item.attr, ltAttr,
      wireValue]

/-- What the store answers to the request of `Put`, in one equation. -/
theorem client_PutItem_eq (t : Table) (r : ScanResult) :
    DynamoDB.client.PutItem t (putItemInput r) =
      if specAccept t r then (none, t.put (keyOf r) (storedItem r))
      else (some conditionalCheckFailed, t) := by
  have h := condition_eval r (t (keyOf r))
  have hk : (wireItem (putItemInput r).Item).pk = keyOf r := rfl
  have hi : wireItem (putItemInput r).Item = storedItem r := rfl
  unfold DynamoDB.client specAccept
  simp only []
  rw [hk, hi, h]

/-- What `Put` does on a reachable table, in one equation. -/
theorem store_Put_eq (t : Table) (r : ScanResult) :
    store.Put t r =
      if specAccept t r then (none, t.put (keyOf r) (storedItem r))
      else (none, t) := by
  have h := condition_eval r (t (keyOf r))
  have hk : (wireItem (putItemInput r).Item).pk = keyOf r := rfl
  have hi : wireItem (putItemInput r).Item = storedItem r := rfl
  unfold dynamoDB.Put store DynamoDB.client specAccept
  simp only []
  rw [hk, hi, h]
  cases hold : t (keyOf r) with
  | none => simp
  | some it =>
    by_cases hlt : it.timestamp < r.Timestamp
    · simp [hlt]
    · simp [hlt, conditionalCheckFailed, GoError.AsConditionalCheckFailed]

theorem putTable_eq (t : Table) (r : ScanResult) :
    putTable t r =
      if specAccept t r then t.put (keyOf r) (storedItem r) else t := by
  unfold putTable
  rw [store_Put_eq]
  split <;> rfl

theorem specAccept_iff (t : Table) (r : ScanResult) :
    specAccept t r = true ↔
      (t (keyOf r) = none ∨
        ∃ old, t (keyOf r) = some old ∧ old.timestamp < r.Timestamp) := by
  unfold specAccept
  cases h : t (keyOf r) with
  | none => simp
  | some old => simp

theorem Table.put_same (t : Table) (k : GoString) (it : Item) : t.put k it k = some it := by
  simp [Table.put]

theorem Table.put_other (t : Table) (k k' : GoString) (it : Item) (h : k' ≠ k) :
    t.put k it k' = t k' := by
  simp [Table.put, h]

/-- A write leaves every other key of the table as it was. -/
theorem putTable_other_key (t : Table) (r : ScanResult) (k : GoString)
    (h : k ≠ keyOf r) : putTable t r k = t k := by
  rw [putTable_eq]
  split
  · exact Table.put_other t _ k _ h
  · rfl

theorem putAll_snoc (t : Table) (rs : List ScanResult) (r : ScanResult) :
    putAll t (rs ++ [r]) = putTable (putAll t rs) r := by
  simp [putAll, List.foldl_append]

/-- Per composite key, a table filled from empty holds an item exactly for the
keys written, and its timestamp is the greatest one written under that key. -/
theorem putAll_timestamp_max_per_pk (rs : List ScanResult) (k : GoString) :
    (putAll Table.empty rs k = none ↔ ∀ r ∈ rs, keyOf r ≠ k) ∧
    ∀ it, putAll Table.empty rs k = some it →
      (∃ r ∈ rs, keyOf r = k ∧ storedItem r = it) ∧
      ∀ r ∈ rs, keyOf r = k → r.Timestamp ≤ it.timestamp := by
  induction rs using List.reverseRecOn with
  | nil => simp [putAll, Table.empty]
  | append_singleton rs r ih =>
    obtain ⟨ihn, ihs⟩ := ih
    rw [putAll_snoc, putTable_eq]
    by_cases hk : k = keyOf r
    · subst hk
      by_cases hacc : specAccept (putAll Table.empty rs) r = true
      · rw [if_pos hacc, Table.put_same]
        refine ⟨⟨fun h => (by cases h), fun h => absurd rfl (h r (by simp))⟩, ?_⟩
        intro it hit
        have hit' : storedItem r = it := by simpa using hit
        subst hit'
        refine ⟨⟨r, by simp, rfl, rfl⟩, ?_⟩
        intro r' hr' hpk
        rcases List.mem_append.1 hr' with hin | hin
        · rcases (specAccept_iff _ _).1 hacc with hnone | ⟨old, hold, hlt⟩
          · exact absurd hpk (ihn.1 hnone r' hin)
          · have := (ihs old hold).2 r' hin hpk
            show r'.Timestamp ≤ r.Timestamp
            omega
        · have : r' = r := by simpa using hin
          subst this
          exact le_refl _
      · rw [if_neg hacc]
        have hnacc := hacc
        rw [specAccept_iff] at hnacc
        push_neg at hnacc
        obtain ⟨hsome, hge⟩ := hnacc
        refine ⟨?_, ?_⟩
        · constructor
          · intro h; exact absurd h hsome
          · intro h; exact absurd rfl (h r (by simp))
        · intro it hit
          obtain ⟨⟨r0, hr0, hpk0, hi0⟩, hmax⟩ := ihs it hit
          refine ⟨⟨r0, by simp [hr0], hpk0, hi0⟩, ?_⟩
          intro r' hr' hpk
          rcases List.mem_append.1 hr' with hin | hin
          · exact hmax r' hin hpk
          · have : r' = r := by simpa using hin
            subst this
            exact hge it hit
    · have hput : (if specAccept (putAll Table.empty rs) r = true then
          (putAll Table.empty rs).put (keyOf r) (storedItem r)
          else putAll Table.empty rs) k = putAll Table.empty rs k := by
        split
        · exact Table.put_other _ _ _ _ hk
        · rfl
      rw [hput]
      refine ⟨?_, ?_⟩
      · rw [ihn]
        constructor
        · intro h r' hr'
          rcases List.mem_append.1 hr' with hin | hin
          · exact h r' hin
          · have : r' = r := by simpa using hin
            subst this
            exact fun h' => hk h'.symm
        · intro h r' hr'
          exact h r' (by simp [hr'])
      · intro it hit
        obtain ⟨⟨r0, hr0, hpk0, hi0⟩, hmax⟩ := ihs it hit
        refine ⟨⟨r0, by simp [hr0], hpk0, hi0⟩, ?_⟩
        intro r' hr' hpk
        rcases List.mem_append.1 hr' with hin | hin
        · exact hmax r' hin hpk
        · have : r' = r := by simpa using hin
          subst this
          exact absurd hpk.symm hk

/-! ## The composite key -/

/-- The byte of a decimal digit. -/
theorem digitChar_byte (d : Nat) (h : d < 10) :
    (Fin.ofNat (Nat.digitChar d).toNat : Byte) = Fin.ofNat (48 + d) := by
  have : ∀ d : Fin 10, (Fin.ofNat (Nat.digitChar d.val).toNat : Byte) = Fin.ofNat (48 + d.val) := by
    decide
  exact this ⟨d, h⟩

/-- The digits `Nat.toDigitsCore` writes, given enough fuel. -/
theorem toDigitsCore_eq (fuel : Nat) : ∀ (n : Nat) (acc : List Char), 0 < n → n < fuel →
    Nat.toDigitsCore 10 fuel n acc = ((Nat.digits 10 n).reverse.map Nat.digitChar) ++ acc := by
  induction fuel with
  | zero => intro n acc _ h; omega
  | succ fuel ih =>
    intro n acc hpos hlt
    rw [Nat.digits_def' (by decide) hpos]
    simp only [Nat.toDigitsCore, List.reverse_cons, List.map_append, List.map_cons, List.map_nil,
      List.append_assoc, List.singleton_append]
    by_cases h0 : n / 10 = 0
    · rw [if_pos h0, h0]
      simp
    · rw [if_neg h0, ih (n / 10) _ (Nat.pos_of_ne_zero h0) (by omega)]

/-- The decimal text of a positive number, digit by digit. -/
theorem fmtNat_pos (n : Nat) (h : 0 < n) :
    fmtNat n = (Nat.digits 10 n).reverse.map (fun d => (Fin.ofNat (48 + d) : Byte)) := by
  unfold fmtNat Nat.toDigits
  rw [toDigitsCore_eq (n + 1) n [] h (by omega), List.append_nil, List.map_map]
  apply List.map_congr_left
  intro d hd
  exact digitChar_byte d (Nat.digits_lt_base (by decide) (List.mem_reverse.1 hd))

theorem fmtNat_zero : fmtNat 0 = [48] := by decide

/-- The decimal text of a number holds no `#`. -/
theorem fmtNat_no_hash (n : Nat) : (35 : Byte) ∉ fmtNat n := by
  rcases Nat.eq_zero_or_pos n with h | h
  · subst h
    decide
  · rw [fmtNat_pos n h]
    intro hmem
    obtain ⟨d, hd, he⟩ := List.mem_map.1 hmem
    have hlt : d < 10 := Nat.digits_lt_base (by decide) (List.mem_reverse.1 hd)
    have : ∀ d : Fin 10, (Fin.ofNat (48 + d.val) : Byte) ≠ 35 := by decide
    exact this ⟨d, hlt⟩ he

/-- Two numbers with the same decimal text are equal. -/
theorem fmtNat_injective (n m : Nat) (h : fmtNat n = fmtNat m) : n = m := by
  have hinj : ∀ l l' : List Nat, (∀ d ∈ l, d < 10) → (∀ d ∈ l', d < 10) →
      l.map (fun d => (Fin.ofNat (48 + d) : Byte)) = l'.map (fun d => (Fin.ofNat (48 + d) : Byte)) →
      l = l' := by
    intro l
    induction l with
    | nil =>
      intro l' _ _ he
      cases l' with
      | nil => rfl
      | cons x xs => simp at he
    | cons a l ih =>
      intro l' hl hl' he
      cases l' with
      | nil => simp at he
      | cons b l' =>
        simp only [List.map_cons, List.cons.injEq] at he
        have ha : a < 10 := hl a (by simp)
        have hb : b < 10 := hl' b (by simp)
        have hab : a = b := by
          have h1 := congrArg Fin.val he.1
          simp only [Fin.ofNat, Fin.val_mk] at h1
          omega
        rw [hab, ih l' (fun d hd => hl d (by simp [hd])) (fun d hd => hl' d (by simp [hd])) he.2]
  have hdig : ∀ k : Nat, ∀ d ∈ (Nat.digits 10 k).reverse, d < 10 :=
    fun k d hd => Nat.digits_lt_base (by decide) (List.mem_reverse.1 hd)
  have hzero : ∀ k : Nat, 0 < k → fmtNat k ≠ fmtNat 0 := by
    intro k hk he
    rw [fmtNat_pos k hk, fmtNat_zero] at he
    have h0 : (Nat.digits 10 k).reverse = [0] :=
      hinj _ [0] (hdig k) (by simp) (by simpa using he)
    have h1 : Nat.digits 10 k = [0] := by
      have := congrArg List.reverse h0
      simpa using this
    have h2 := Nat.ofDigits_digits 10 k
    rw [h1] at h2
    simp [Nat.ofDigits] at h2
    omega
  rcases Nat.eq_zero_or_pos n with hn | hn <;> rcases Nat.eq_zero_or_pos m with hm | hm
  · rw [hn, hm]
  · subst hn
    exact absurd h.symm (hzero m hm)
  · subst hm
    exact absurd h (hzero n hn)
  · rw [fmtNat_pos n hn, fmtNat_pos m hm] at h
    have := hinj _ _ (hdig n) (hdig m) h
    exact Nat.digits_inj_iff.1 (List.reverse_injective this)

/-- A text without `#` followed by `#` is cut off at that `#`. -/
theorem split_at_hash (x : GoString) : ∀ (x' r r' : GoString), (35 : Byte) ∉ x → (35 : Byte) ∉ x' →
    x ++ 35 :: r = x' ++ 35 :: r' → x = x' ∧ r = r' := by
  induction x with
  | nil =>
    intro x' r r' _ hx' h
    cases x' with
    | nil => simpa using h
    | cons b x' =>
      simp only [List.nil_append, List.cons_append, List.cons.injEq] at h
      exact absurd (by simp [h.1]) hx'
  | cons a x ih =>
    intro x' r r' hx hx' h
    cases x' with
    | nil =>
      simp only [List.nil_append, List.cons_append, List.cons.injEq] at h
      exact absurd (by simp [h.1]) hx
    | cons b x' =>
      simp only [List.cons_append, List.cons.injEq] at h
      obtain ⟨e1, e2⟩ := ih x' r r' (fun hm => hx (by simp [hm])) (fun hm => hx' (by simp [hm])) h.2
      exact ⟨by rw [h.1, e1], e2⟩

/-- Tuples whose hosts hold no `#` get distinct composite keys: equal keys come
from equal host, port and service. -/
theorem pkOf_injective (IP : GoString) (Port : Nat) (Service : GoString) (IP' : GoString)
    (Port' : Nat) (Service' : GoString) (h : (35 : Byte) ∉ IP) (h' : (35 : Byte) ∉ IP')
    (hk : pkOf IP Port Service = pkOf IP' Port' Service') :
    IP = IP' ∧ Port = Port' ∧ Service = Service' := by
  unfold pkOf at hk
  simp only [List.append_assoc, List.singleton_append] at hk
  obtain ⟨e1, hk⟩ := split_at_hash IP IP' _ _ h h' hk
  obtain ⟨e2, e3⟩ := split_at_hash _ _ _ _ (fmtNat_no_hash Port) (fmtNat_no_hash Port') hk
  exact ⟨e1, fmtNat_injective _ _ e2, e3⟩

/-- The decimal text of a number is ASCII. -/
theorem fmtNat_ascii (n : Nat) : ∀ b ∈ fmtNat n, b.val < 0x80 := by
  rcases Nat.eq_zero_or_pos n with h | h
  · subst h
    rw [fmtNat_zero]
    intro b hb
    have : b = 48 := by simpa using hb
    rw [this]
    decide
  · rw [fmtNat_pos n h]
    intro b hmem
    obtain ⟨d, hd, he⟩ := List.mem_map.1 hmem
    have hlt : d < 10 := Nat.digits_lt_base (by decide) (List.mem_reverse.1 hd)
    have : ∀ d : Fin 10, (Fin.ofNat (48 + d.val) : Byte).val < 0x80 := by decide
    rw [← he]
    exact this ⟨d, hlt⟩

/-- The composite key of a host and a service that are transmitted as they
are, is transmitted as it is. -/
theorem wireString_pkOf (IP : GoString) (Port : Nat) (Service : GoString)
    (hIP : wireString IP = IP) (hService : wireString Service = Service) :
    wireString (pkOf IP Port Service) = pkOf IP Port Service := by
  have hhash : wireString ([35] : GoString) = [35] := by decide
  unfold pkOf
  exact wireString_append_valid _ _
    (wireString_append_valid _ _
      (wireString_append_valid _ _
        (wireString_append_valid _ _ hIP hhash)
        (wireString_ascii _ (fmtNat_ascii Port)))
      hhash)
    hService

/-- The store files a result whose host and service are transmitted as they are
under its composite key, and keeps all its strings but the response as they
are. -/
theorem keyOf_eq_pkOf (r : ScanResult) (hIP : wireString r.IP = r.IP)
    (hService : wireString r.Service = r.Service) :
    keyOf r = pkOf r.IP r.Port r.Service :=
  wireString_pkOf r.IP r.Port r.Service hIP hService

/-- The item the store receives for a result whose strings are all transmitted
as they are, is the item `Put` built. -/
theorem storedItem_eq_itemOf (r : ScanResult) (hIP : wireString r.IP = r.IP)
    (hService : wireString r.Service = r.Service)
    (hResponse : wireString r.Response = r.Response) : storedItem r = itemOf r := by
  have hk := wireString_pkOf r.IP r.Port r.Service hIP hService
  simp only [storedItem, wireItem, itemOf, hk, hIP, hService, hResponse]

/-! ## The greatest timestamp of a tuple -/

theorem specMaxTimestamp_none (IP : GoString) (Port : Nat) (Service : GoString)
    (rs : List ScanResult) :
    specMaxTimestamp IP Port Service rs = none ↔
      ∀ r ∈ rs, ¬ (r.IP = IP ∧ r.Port = Port ∧ r.Service = Service) := by
  induction rs with
  | nil => simp [specMaxTimestamp]
  | cons r rs ih =>
    unfold specMaxTimestamp
    by_cases hp : r.IP = IP ∧ r.Port = Port ∧ r.Service = Service
    · rw [if_pos hp]
      constructor
      · intro h
        cases hm : specMaxTimestamp IP Port Service rs <;> rw [hm] at h <;> cases h
      · intro h
        exact absurd hp (h r (by simp))
    · rw [if_neg hp, ih]
      constructor
      · intro h r' hr'
        rcases List.mem_cons.1 hr' with rfl | hin
        · exact hp
        · exact h r' hin
      · intro h r' hr'
        exact h r' (by simp [hr'])

/-- The timestamp `specMaxTimestamp` gives is the timestamp of a result with
the tuple, and no result with the tuple has a greater one. -/
theorem specMaxTimestamp_some (IP : GoString) (Port : Nat) (Service : GoString)
    (rs : List ScanResult) : ∀ m, specMaxTimestamp IP Port Service rs = some m →
      (∃ r ∈ rs, (r.IP = IP ∧ r.Port = Port ∧ r.Service = Service) ∧ r.Timestamp = m) ∧
      ∀ r ∈ rs, (r.IP = IP ∧ r.Port = Port ∧ r.Service = Service) → r.Timestamp ≤ m := by
  induction rs with
  | nil => intro m h; simp [specMaxTimestamp] at h
  | cons r rs ih =>
    intro m h
    unfold specMaxTimestamp at h
    by_cases hp : r.IP = IP ∧ r.Port = Port ∧ r.Service = Service
    · rw [if_pos hp] at h
      cases hm : specMaxTimestamp IP Port Service rs with
      | none =>
        rw [hm] at h
        injection h with h
        subst h
        refine ⟨⟨r, by simp, hp, rfl⟩, ?_⟩
        intro r' hr' hp'
        rcases List.mem_cons.1 hr' with rfl | hin
        · exact le_refl _
        · exact absurd hp' ((specMaxTimestamp_none IP Port Service rs).1 hm r' hin)
      | some m' =>
        rw [hm] at h
        injection h with h
        obtain ⟨⟨r0, hr0, hp0, ht0⟩, hmax⟩ := ih m' hm
        constructor
        · rcases le_total r.Timestamp m' with hle | hle
          · exact ⟨r0, by simp [hr0], hp0, by rw [ht0, ← h, max_eq_right hle]⟩
          · exact ⟨r, by simp, hp, by rw [← h, max_eq_left hle]⟩
        · intro r' hr' hp'
          rcases List.mem_cons.1 hr' with rfl | hin
          · rw [← h]; exact le_max_left _ _
          · rw [← h]; exact le_trans (hmax r' hin hp') (le_max_right _ _)
    · rw [if_neg hp] at h
      obtain ⟨⟨r0, hr0, hp0, ht0⟩, hmax⟩ := ih m h
      refine ⟨⟨r0, by simp [hr0], hp0, ht0⟩, ?_⟩
      intro r' hr' hp'
      rcases List.mem_cons.1 hr' with rfl | hin
      · exact absurd hp' hp
      · exact hmax r' hin hp'

/-- What holds of the greatest timestamp: for a tuple of the sequence that
shares its key in the table with no other tuple of the sequence, the record
stored for it after all writes has the greatest timestamp among the results
with that tuple. -/
theorem putAll_timestamp_max_of_distinct_keys (rs : List ScanResult) (r0 : ScanResult)
    (h0 : r0 ∈ rs)
    (hkeys : ∀ r ∈ rs, keyOf r = keyOf r0 →
      r.IP = r0.IP ∧ r.Port = r0.Port ∧ r.Service = r0.Service) :
    (putAll Table.empty rs (keyOf r0)).map (fun it => it.timestamp)
      = specMaxTimestamp r0.IP r0.Port r0.Service rs := by
  obtain ⟨hnone, hsome⟩ := putAll_timestamp_max_per_pk rs (keyOf r0)
  cases hst : putAll Table.empty rs (keyOf r0) with
  | none => exact absurd rfl (hnone.1 hst r0 h0)
  | some it =>
    obtain ⟨⟨r1, hr1, hk1, hi1⟩, hmax⟩ := hsome it hst
    cases hm : specMaxTimestamp r0.IP r0.Port r0.Service rs with
    | none =>
      exact absurd ⟨rfl, rfl, rfl⟩ ((specMaxTimestamp_none _ _ _ rs).1 hm r0 h0)
    | some m =>
      obtain ⟨⟨r2, hr2, hp2, ht2⟩, hmax2⟩ := specMaxTimestamp_some _ _ _ rs m hm
      have hle1 : m ≤ it.timestamp := by
        rw [← ht2]
        exact hmax r2 hr2 (by unfold keyOf; rw [hp2.1, hp2.2.1, hp2.2.2])
      have hle2 : it.timestamp ≤ m := by
        rw [← hi1]
        exact hmax2 r1 hr1 (hkeys r1 hr1 hk1)
      simp only [Option.map_some', Option.some.injEq]
      omega

/-- What holds of the greatest timestamp when every host and service is
well-formed UTF-8 (transmitted as it is) and no host holds a `#`: the record
stored under the composite key of each tuple of the sequence has the greatest
timestamp among the results with that tuple. -/
theorem putAll_timestamp_max_of_plain_hosts (rs : List ScanResult) (r0 : ScanResult)
    (h0 : r0 ∈ rs) (hplain : ∀ r ∈ rs, (35 : Byte) ∉ r.IP)
    (hIP : ∀ r ∈ rs, wireString r.IP = r.IP)
    (hService : ∀ r ∈ rs, wireString r.Service = r.Service) :
    (putAll Table.empty rs (pkOf r0.IP r0.Port r0.Service)).map (fun it => it.timestamp)
      = specMaxTimestamp r0.IP r0.Port r0.Service rs := by
  rw [← keyOf_eq_pkOf r0 (hIP r0 h0) (hService r0 h0)]
  refine putAll_timestamp_max_of_distinct_keys rs r0 h0 ?_
  intro r hr hk
  rw [keyOf_eq_pkOf r (hIP r hr) (hService r hr),
    keyOf_eq_pkOf r0 (hIP r0 h0) (hService r0 h0)] at hk
  exact pkOf_injective _ _ _ _ _ _ (hplain r hr) (hplain r0 h0) hk

/-! ## base64 round trip -/

theorem decodeSextet_encodeSextet (n : Fin 64) :
    decodeSextet (encodeSextet n.val) = some n.val := by
  revert n
  decide

theorem encodeSextet_not_newline (n : Fin 64) :
    (encodeSextet n.val != Char.ofNat 10 && encodeSextet n.val != Char.ofNat 13) = true := by
  revert n
  decide

theorem decodeSextet_pad : decodeSextet '=' = none := by decide

theorem decodeSextet_enc (n : Nat) (h : n < 64) : decodeSextet (encodeSextet n) = some n :=
  decodeSextet_encodeSextet ⟨n, h⟩

theorem enc_not_newline (n : Nat) (h : n < 64) :
    (encodeSextet n != Char.ofNat 10 && encodeSextet n != Char.ofNat 13) = true :=
  encodeSextet_not_newline ⟨n, h⟩

theorem ofNat_val_eq (b : Byte) (n : Nat) (h : n = b.val) : (Fin.ofNat n : Byte) = b := by
  apply Fin.ext
  subst h
  show b.val % 256 = b.val
  exact Nat.mod_eq_of_lt b.isLt

/-- The text `EncodeToString` writes holds no line break. -/
theorem filter_EncodeToString (bs : List Byte) :
    (EncodeToString bs).filter (fun c => c != Char.ofNat 10 && c != Char.ofNat 13)
      = EncodeToString bs := by
  induction bs using EncodeToString.induct with
  | case1 a b c rest ih =>
    have ha := a.isLt; have hb := b.isLt; have hc := c.isLt
    simp only [EncodeToString, List.filter_cons, ih,
      enc_not_newline (a.val / 4) (by omega),
      enc_not_newline (a.val % 4 * 16 + b.val / 16) (by omega),
      enc_not_newline (b.val % 16 * 4 + c.val / 64) (by omega),
      enc_not_newline (c.val % 64) (by omega), if_true]
  | case2 a b =>
    have ha := a.isLt; have hb := b.isLt
    simp only [EncodeToString, List.filter_cons, List.filter_nil,
      enc_not_newline (a.val / 4) (by omega),
      enc_not_newline (a.val % 4 * 16 + b.val / 16) (by omega),
      enc_not_newline (b.val % 16 * 4) (by omega), if_true]
    rfl
  | case3 a =>
    have ha := a.isLt
    simp only [EncodeToString, List.filter_cons, List.filter_nil,
      enc_not_newline (a.val / 4) (by omega),
      enc_not_newline (a.val % 4 * 16) (by omega), if_true]
    rfl
  | case4 => rfl

/-- A quantum of four characters of the alphabet, whatever follows it. -/
theorem decodeQuanta_full (c0 c1 c2 c3 : Char) (tl : List Char) (d0 d1 d2 d3 : Nat)
    (h0 : decodeSextet c0 = some d0) (h1 : decodeSextet c1 = some d1)
    (h2 : decodeSextet c2 = some d2) (h3 : decodeSextet c3 = some d3) :
    decodeQuanta (c0 :: c1 :: c2 :: c3 :: tl)
      = (decodeQuanta tl).map (fun bs => quantumBytes d0 d1 d2 d3 3 ++ bs) := by
  cases tl with
  | nil => simp [decodeQuanta, h0, h1, h2, h3]
  | cons x xs => simp [decodeQuanta, h0, h1, h2, h3]

/-- Decoding what was encoded gives the bytes back. -/
theorem decodeQuanta_EncodeToString (bs : List Byte) :
    decodeQuanta (EncodeToString bs) = some bs := by
  induction bs using EncodeToString.induct with
  | case1 a b c rest ih =>
    have ha := a.isLt; have hb := b.isLt; have hc := c.isLt
    rw [EncodeToString, decodeQuanta_full _ _ _ _ _ _ _ _ _
      (decodeSextet_enc (a.val / 4) (by omega))
      (decodeSextet_enc (a.val % 4 * 16 + b.val / 16) (by omega))
      (decodeSextet_enc (b.val % 16 * 4 + c.val / 64) (by omega))
      (decodeSextet_enc (c.val % 64) (by omega)), ih]
    simp only [Option.map_some', quantumBytes, List.take, List.cons_append, List.nil_append]
    rw [ofNat_val_eq a _ (by omega), ofNat_val_eq b _ (by omega), ofNat_val_eq c _ (by omega)]
  | case2 a b =>
    have ha := a.isLt; have hb := b.isLt
    simp only [EncodeToString, decodeQuanta,
      decodeSextet_enc (a.val / 4) (by omega),
      decodeSextet_enc (a.val % 4 * 16 + b.val / 16) (by omega),
      decodeSextet_enc (b.val % 16 * 4) (by omega), decodeSextet_pad, if_true,
      quantumBytes, List.take]
    rw [ofNat_val_eq a _ (by omega), ofNat_val_eq b _ (by omega)]
  | case3 a =>
    have ha := a.isLt
    simp only [EncodeToString, decodeQuanta,
      decodeSextet_enc (a.val / 4) (by omega),
      decodeSextet_enc (a.val % 4 * 16) (by omega), decodeSextet_pad, and_self, if_true,
      quantumBytes, List.take]
    rw [ofNat_val_eq a _ (by omega)]
  | case4 => rfl

/-- The round trip of `base64.StdEncoding`. -/
theorem DecodeString_EncodeToString (bs : List Byte) :
    DecodeString (EncodeToString bs) = some bs := by
  unfold DecodeString
  rw [filter_EncodeToString, decodeQuanta_EncodeToString]

/-! ## Folding over the members of an object -/

theorem foldlM_cons_ok {σ α ε : Type} (step : σ → α → Except ε σ) (m : α) (l : List α)
    (init st : σ) (h : step init m = .ok st) :
    (m :: l).foldlM step init = l.foldlM step st := by
  simp only [List.foldlM_cons, h]
  rfl

theorem foldlM_cons_error {σ α ε : Type} (step : σ → α → Except ε σ) (m : α) (l : List α)
    (init : σ) (e : ε) (h : step init m = .error e) :
    (m :: l).foldlM step init = .error e := by
  simp only [List.foldlM_cons, h]
  rfl

/-- A field that only the members selected by `p` can set: after a successful
fold it is as before when no member is selected, and it is what the selected
member sets when there is exactly one. -/
theorem foldlM_field {σ α β ε : Type} (step : σ → α → Except ε σ) (p : α → Bool) (get : σ → β)
    (hframe : ∀ st m st', p m = false → step st m = .ok st' → get st' = get st)
    (l : List α) : ∀ (init s : σ), l.foldlM step init = .ok s →
      (l.filter p = [] → get s = get init) ∧
      (∀ m0 b, l.filter p = [m0] → (∀ st st', step st m0 = .ok st' → get st' = b) →
        get s = b) := by
  induction l with
  | nil =>
    intro init s h
    have hs : init = s := by
      have : (Except.ok init : Except ε σ) = .ok s := h
      injection this
    subst hs
    exact ⟨fun _ => rfl, fun m0 b hf _ => by simp at hf⟩
  | cons m l ih =>
    intro init s h
    cases hstep : step init m with
    | error e =>
      rw [foldlM_cons_error step m l init e hstep] at h
      cases h
    | ok st =>
      rw [foldlM_cons_ok step m l init st hstep] at h
      obtain ⟨ih1, ih2⟩ := ih st s h
      by_cases hp : p m = true
      · constructor
        · intro hf
          simp [List.filter_cons, hp] at hf
        · intro m0 b hf hval
          simp only [List.filter_cons, hp, if_true] at hf
          have hm : m = m0 := by injection hf
          have hnil : l.filter p = [] := by injection hf
          subst hm
          rw [ih1 hnil]
          exact hval init st hstep
      · have hp' : p m = false := by simpa using hp
        constructor
        · intro hf
          simp only [List.filter_cons, hp'] at hf
          rw [ih1 hf]
          exact hframe init m st hp' hstep
        · intro m0 b hf hval
          simp only [List.filter_cons, hp'] at hf
          exact ih2 m0 b hf hval

/-- A fold succeeds when every member can be decoded in every state. -/
theorem foldlM_ok {σ α ε : Type} (step : σ → α → Except ε σ) (l : List α)
    (hok : ∀ m ∈ l, ∀ st, ∃ st', step st m = .ok st') :
    ∀ init, ∃ s, l.foldlM step init = .ok s := by
  induction l with
  | nil => exact fun init => ⟨init, rfl⟩
  | cons m l ih =>
    intro init
    obtain ⟨st, hst⟩ := hok m (by simp) init
    rw [foldlM_cons_ok step m l init st hst]
    exact ih (fun m' hm' => hok m' (by simp [hm'])) st

/-- A fold fails when one member fails in every state. -/
theorem foldlM_error {σ α ε : Type} (step : σ → α → Except ε σ) (l : List α) (m : α)
    (hm : m ∈ l) (herr : ∀ st, ∃ e, step st m = .error e) :
    ∀ init, ∃ e, l.foldlM step init = .error e := by
  induction l with
  | nil => simp at hm
  | cons x l ih =>
    intro init
    cases hstep : step init x with
    | error e => exact ⟨e, foldlM_cons_error step x l init e hstep⟩
    | ok st =>
      rw [foldlM_cons_ok step x l init st hstep]
      rcases List.mem_cons.1 hm with rfl | hin
      · obtain ⟨e, he⟩ := herr init
        rw [he] at hstep
        cases hstep
      · exact ih hin st

theorem map_eq_ok {ε α β : Type} (f : α → β) (x : Except ε α) (y : β)
    (h : x.map f = .ok y) : ∃ a, x = .ok a ∧ f a = y := by
  cases x with
  | error e => cases h
  | ok a => exact ⟨a, rfl, by injection h⟩

/-! ## The folded field names -/

theorem foldName_ip : foldName "ip" = ['I', 'P'] := by decide
theorem foldName_port : foldName "port" = ['P', 'O', 'R', 'T'] := by decide
theorem foldName_service : foldName "service" = ['S', 'E', 'R', 'V', 'I', 'C', 'E'] := by decide
theorem foldName_timestamp :
    foldName "timestamp" = ['T', 'I', 'M', 'E', 'S', 'T', 'A', 'M', 'P'] := by decide
theorem foldName_data_version :
    foldName "data_version" = ['D', 'A', 'T', 'A', '_', 'V', 'E', 'R', 'S', 'I', 'O', 'N'] := by
  decide
theorem foldName_data : foldName "data" = ['D', 'A', 'T', 'A'] := by decide

/-! ## The fields of a decoded envelope -/

theorem decodeInt_num (bits : Nat) (old : Int) (n : JNumber) (a : Int)
    (h : decodeInt bits old (.num n) = .ok a) : n.intValue = some a := by
  cases n with
  | real l => simp [decodeInt] at h
  | int neg mag =>
    unfold decodeInt at h
    simp only [] at h
    by_cases hr : -(2 ^ (bits - 1) : Int) ≤ (if neg then -(mag : Int) else (mag : Int)) ∧
        (if neg then -(mag : Int) else (mag : Int)) < (2 ^ (bits - 1) : Int)
    · rw [if_pos hr] at h
      injection h with h
      rw [← h]
      rfl
    · rw [if_neg hr] at h
      cases h

theorem decodeInt_of_range (bits : Nat) (old : Int) (n : JNumber) (v : Int)
    (hv : n.intValue = some v) (hlo : -(2 ^ (bits - 1) : Int) ≤ v)
    (hhi : v < (2 ^ (bits - 1) : Int)) : decodeInt bits old (.num n) = .ok v := by
  cases n with
  | real l => cases hv
  | int neg mag =>
    simp only [JNumber.intValue, Option.some.injEq] at hv
    unfold decodeInt
    simp only []
    rw [hv, if_pos ⟨hlo, hhi⟩]

theorem decodeUint_num (bits old mag a : Nat)
    (h : decodeUint bits old (.num (.int false mag)) = .ok a) : a = mag := by
  simp only [decodeUint] at h
  by_cases hr : mag < 2 ^ bits
  · rw [if_pos hr] at h
    injection h with h
    exact h.symm
  · rw [if_neg hr] at h
    cases h

theorem decodeInterface_ok (fl : Float64Rules) (j : Json) (a : Option Json)
    (h : decodeInterface fl j = .ok a) :
    a = j.nonNull := by
  cases j <;> simp only [decodeInterface] at h <;> simp only [Json.nonNull] <;>
    first
      | (injection h with h; exact h.symm)
      | (split at h
         · injection h with h; exact h.symm
         · cases h)

theorem Scan.decodeMember_other (fl : Float64Rules) (st : Scan) (m : String × Json)
    (h1 : foldName m.1 ≠ foldName "ip") (h2 : foldName m.1 ≠ foldName "port")
    (h3 : foldName m.1 ≠ foldName "service") (h4 : foldName m.1 ≠ foldName "timestamp")
    (h5 : foldName m.1 ≠ foldName "data_version") (h6 : foldName m.1 ≠ foldName "data") :
    Scan.decodeMember fl st m = .ok st := by
  simp [Scan.decodeMember, h1, h2, h3, h4, h5, h6]

theorem Scan.decodeMember_ip (fl : Float64Rules) (st : Scan) (m : String × Json)
    (h : foldName m.1 = foldName "ip") :
    Scan.decodeMember fl st m = (decodeString st.Ip m.2).map (fun v => { st with Ip := v }) := by
  simp [Scan.decodeMember, h]

theorem Scan.decodeMember_port (fl : Float64Rules) (st : Scan) (m : String × Json)
    (h : foldName m.1 = foldName "port") :
    Scan.decodeMember fl st m
      = (decodeUint 32 st.Port m.2).map (fun v => { st with Port := v }) := by
  simp [Scan.decodeMember, h, foldName_ip, foldName_port]

theorem Scan.decodeMember_service (fl : Float64Rules) (st : Scan) (m : String × Json)
    (h : foldName m.1 = foldName "service") :
    Scan.decodeMember fl st m
      = (decodeString st.Service m.2).map (fun v => { st with Service := v }) := by
  simp [Scan.decodeMember, h, foldName_ip, foldName_port, foldName_service]

theorem Scan.decodeMember_timestamp (fl : Float64Rules) (st : Scan) (m : String × Json)
    (h : foldName m.1 = foldName "timestamp") :
    Scan.decodeMember fl st m
      = (decodeInt 64 st.Timestamp m.2).map (fun v => { st with Timestamp := v }) := by
  simp [Scan.decodeMember, h, foldName_ip, foldName_port, foldName_service, foldName_timestamp]

theorem Scan.decodeMember_data_version (fl : Float64Rules) (st : Scan) (m : String × Json)
    (h : foldName m.1 = foldName "data_version") :
    Scan.decodeMember fl st m
      = (decodeInt 64 st.DataVersion m.2).map (fun v => { st with DataVersion := v }) := by
  simp [Scan.decodeMember, h, foldName_ip, foldName_port, foldName_service, foldName_timestamp,
    foldName_data_version]

theorem Scan.decodeMember_data (fl : Float64Rules) (st : Scan) (m : String × Json)
    (h : foldName m.1 = foldName "data") :
    Scan.decodeMember fl st m
      = (decodeInterface fl m.2).map (fun v => { st with Data := v }) := by
  simp [Scan.decodeMember, h, foldName_ip, foldName_port, foldName_service, foldName_timestamp,
    foldName_data_version, foldName_data]

/-- The field a member sets, by cases. -/
theorem Scan.decodeMember_cases (fl : Float64Rules) (st : Scan) (m : String × Json) :
    (Scan.decodeMember fl st m = .ok st) ∨
    (foldName m.1 = foldName "ip" ∧
      Scan.decodeMember fl st m = (decodeString st.Ip m.2).map (fun v => { st with Ip := v })) ∨
    (foldName m.1 = foldName "port" ∧
      Scan.decodeMember fl st m
        = (decodeUint 32 st.Port m.2).map (fun v => { st with Port := v })) ∨
    (foldName m.1 = foldName "service" ∧
      Scan.decodeMember fl st m
        = (decodeString st.Service m.2).map (fun v => { st with Service := v })) ∨
    (foldName m.1 = foldName "timestamp" ∧
      Scan.decodeMember fl st m
        = (decodeInt 64 st.Timestamp m.2).map (fun v => { st with Timestamp := v })) ∨
    (foldName m.1 = foldName "data_version" ∧
      Scan.decodeMember fl st m
        = (decodeInt 64 st.DataVersion m.2).map (fun v => { st with DataVersion := v })) ∨
    (foldName m.1 = foldName "data" ∧
      Scan.decodeMember fl st m
        = (decodeInterface fl m.2).map (fun v => { st with Data := v })) := by
  by_cases h1 : foldName m.1 = foldName "ip"
  · exact Or.inr (Or.inl ⟨h1, Scan.decodeMember_ip fl st m h1⟩)
  by_cases h2 : foldName m.1 = foldName "port"
  · exact Or.inr (Or.inr (Or.inl ⟨h2, Scan.decodeMember_port fl st m h2⟩))
  by_cases h3 : foldName m.1 = foldName "service"
  · exact Or.inr (Or.inr (Or.inr (Or.inl ⟨h3, Scan.decodeMember_service fl st m h3⟩)))
  by_cases h4 : foldName m.1 = foldName "timestamp"
  · exact Or.inr (Or.inr (Or.inr (Or.inr (Or.inl ⟨h4, Scan.decodeMember_timestamp fl st m h4⟩))))
  by_cases h5 : foldName m.1 = foldName "data_version"
  · exact Or.inr (Or.inr (Or.inr (Or.inr (Or.inr
      (Or.inl ⟨h5, Scan.decodeMember_data_version fl st m h5⟩)))))
  by_cases h6 : foldName m.1 = foldName "data"
  · exact Or.inr (Or.inr (Or.inr (Or.inr (Or.inr
      (Or.inr ⟨h6, Scan.decodeMember_data fl st m h6⟩)))))
  exact Or.inl (Scan.decodeMember_other fl st m h1 h2 h3 h4 h5 h6)

/-- A member leaves every field but the one its key names. -/
theorem Scan.decodeMember_frame (fl : Float64Rules) (st st' : Scan) (m : String × Json)
    (h : Scan.decodeMember fl st m = .ok st') :
    (foldName m.1 ≠ foldName "ip" → st'.Ip = st.Ip) ∧
    (foldName m.1 ≠ foldName "port" → st'.Port = st.Port) ∧
    (foldName m.1 ≠ foldName "service" → st'.Service = st.Service) ∧
    (foldName m.1 ≠ foldName "timestamp" → st'.Timestamp = st.Timestamp) ∧
    (foldName m.1 ≠ foldName "data_version" → st'.DataVersion = st.DataVersion) ∧
    (foldName m.1 ≠ foldName "data" → st'.Data = st.Data) := by
  rcases Scan.decodeMember_cases fl st m with h0 | ⟨hk, h0⟩ | ⟨hk, h0⟩ | ⟨hk, h0⟩ |
    ⟨hk, h0⟩ | ⟨hk, h0⟩ | ⟨hk, h0⟩
  · rw [h0] at h
    injection h with h
    subst h
    simp
  all_goals
    rw [h0] at h
    obtain ⟨a, -, ha⟩ := map_eq_ok _ _ _ h
    subst ha
    simp [hk]

/-- The fields of a decoded envelope, from the members of the object: a field
with no member keeps its zero value, and a field with exactly one member, not
`null`, holds what that member says. -/
theorem Scan.fields_of_members (fl : Float64Rules) (ms : List (String × Json)) (scan : Scan)
    (h : ms.foldlM (Scan.decodeMember fl) Scan.zero = .ok scan) :
    (membersFor "ip" ms = [] → scan.Ip = []) ∧
    (membersFor "port" ms = [] → scan.Port = 0) ∧
    (membersFor "service" ms = [] → scan.Service = []) ∧
    (membersFor "timestamp" ms = [] → scan.Timestamp = 0) ∧
    (membersFor "data_version" ms = [] → scan.DataVersion = 0) ∧
    (membersFor "data" ms = [] → scan.Data = none) ∧
    (∀ k s, membersFor "ip" ms = [(k, .str s)] → scan.Ip = utf8 s) ∧
    (∀ k mag, membersFor "port" ms = [(k, .num (.int false mag))] → scan.Port = mag) ∧
    (∀ k s, membersFor "service" ms = [(k, .str s)] → scan.Service = utf8 s) ∧
    (∀ k n v, membersFor "timestamp" ms = [(k, .num n)] → n.intValue = some v →
      scan.Timestamp = v) ∧
    (∀ k n v, membersFor "data_version" ms = [(k, .num n)] → n.intValue = some v →
      scan.DataVersion = v) ∧
    (∀ k j, membersFor "data" ms = [(k, j)] → scan.Data = j.nonNull) := by
  have frame := fun st m st' h => Scan.decodeMember_frame fl st st' m h
  have F1 := foldlM_field (Scan.decodeMember fl)
    (fun m => decide (foldName m.1 = foldName "ip")) Scan.Ip
    (fun st m st' hp hs => (frame st m st' hs).1 (by simpa using hp)) ms _ _ h
  have F2 := foldlM_field (Scan.decodeMember fl)
    (fun m => decide (foldName m.1 = foldName "port")) Scan.Port
    (fun st m st' hp hs => (frame st m st' hs).2.1 (by simpa using hp)) ms _ _ h
  have F3 := foldlM_field (Scan.decodeMember fl)
    (fun m => decide (foldName m.1 = foldName "service")) Scan.Service
    (fun st m st' hp hs => (frame st m st' hs).2.2.1 (by simpa using hp)) ms _ _ h
  have F4 := foldlM_field (Scan.decodeMember fl)
    (fun m => decide (foldName m.1 = foldName "timestamp")) Scan.Timestamp
    (fun st m st' hp hs => (frame st m st' hs).2.2.2.1 (by simpa using hp)) ms _ _ h
  have F5 := foldlM_field (Scan.decodeMember fl)
    (fun m => decide (foldName m.1 = foldName "data_version")) Scan.DataVersion
    (fun st m st' hp hs => (frame st m st' hs).2.2.2.2.1 (by simpa using hp)) ms _ _ h
  have F6 := foldlM_field (Scan.decodeMember fl)
    (fun m => decide (foldName m.1 = foldName "data")) Scan.Data
    (fun st m st' hp hs => (frame st m st' hs).2.2.2.2.2 (by simpa using hp)) ms _ _ h
  have key : ∀ (name : String) (k : String) (v : Json),
      membersFor name ms = [(k, v)] → foldName k = foldName name := by
    intro name k v hf
    have hmem : (k, v) ∈ membersFor name ms := by rw [hf]; simp
    have := (List.mem_filter.1 hmem).2
    simpa using this
  refine ⟨F1.1, F2.1, F3.1, F4.1, F5.1, F6.1, ?_, ?_, ?_, ?_, ?_, ?_⟩
  · intro k s hf
    refine F1.2 _ _ hf ?_
    intro st st' hs
    rw [Scan.decodeMember_ip fl st _ (key _ _ _ hf)] at hs
    obtain ⟨a, ha, rfl⟩ := map_eq_ok _ _ _ hs
    simp only [decodeString] at ha
    injection ha with ha
    exact ha.symm
  · intro k mag hf
    refine F2.2 _ _ hf ?_
    intro st st' hs
    rw [Scan.decodeMember_port fl st _ (key _ _ _ hf)] at hs
    obtain ⟨a, ha, rfl⟩ := map_eq_ok _ _ _ hs
    exact decodeUint_num _ _ _ _ ha
  · intro k s hf
    refine F3.2 _ _ hf ?_
    intro st st' hs
    rw [Scan.decodeMember_service fl st _ (key _ _ _ hf)] at hs
    obtain ⟨a, ha, rfl⟩ := map_eq_ok _ _ _ hs
    simp only [decodeString] at ha
    injection ha with ha
    exact ha.symm
  · intro k n v hf hv
    refine F4.2 _ _ hf ?_
    intro st st' hs
    rw [Scan.decodeMember_timestamp fl st _ (key _ _ _ hf)] at hs
    obtain ⟨a, ha, rfl⟩ := map_eq_ok _ _ _ hs
    have := decodeInt_num _ _ _ _ ha
    rw [hv] at this
    injection this with this
    exact this.symm
  · intro k n v hf hv
    refine F5.2 _ _ hf ?_
    intro st st' hs
    rw [Scan.decodeMember_data_version fl st _ (key _ _ _ hf)] at hs
    obtain ⟨a, ha, rfl⟩ := map_eq_ok _ _ _ hs
    have := decodeInt_num _ _ _ _ ha
    rw [hv] at this
    injection this with this
    exact this.symm
  · intro k j hf
    refine F6.2 _ _ hf ?_
    intro st st' hs
    rw [Scan.decodeMember_data fl st _ (key _ _ _ hf)] at hs
    obtain ⟨a, ha, rfl⟩ := map_eq_ok _ _ _ hs
    exact decodeInterface_ok fl _ _ ha

/-! ## The data object after `Marshal` -/

theorem membersFor_cons (name : String) (m : String × Json) (ms : List (String × Json)) :
    membersFor name (m :: ms) =
      if foldName m.1 = foldName name then m :: membersFor name ms else membersFor name ms := by
  unfold membersFor
  by_cases h : foldName m.1 = foldName name <;> simp [List.filter_cons, h]

theorem mem_membersFor (name : String) (m : String × Json) (ms : List (String × Json)) :
    m ∈ membersFor name ms ↔ m ∈ ms ∧ foldName m.1 = foldName name := by
  simp [membersFor, List.mem_filter]

theorem mapMembers_sublist (ms : List (String × Json)) : (mapMembers ms).Sublist ms := by
  induction ms with
  | nil => exact List.Sublist.slnil
  | cons m ms ih =>
    unfold mapMembers
    split
    · exact List.Sublist.cons m ih
    · exact List.Sublist.cons₂ m ih

theorem membersFor_mapMembers_nil (name : String) (ms : List (String × Json))
    (h : membersFor name ms = []) : membersFor name (mapMembers ms) = [] := by
  have hs : (membersFor name (mapMembers ms)).Sublist (membersFor name ms) :=
    List.Sublist.filter _ (mapMembers_sublist ms)
  rw [h] at hs
  exact List.sublist_nil.1 hs

/-- The one member for a field is still the one member for it in the map. -/
theorem membersFor_mapMembers (name : String) (ms : List (String × Json)) (m0 : String × Json)
    (h : membersFor name ms = [m0]) : membersFor name (mapMembers ms) = [m0] := by
  induction ms with
  | nil => simp [membersFor] at h
  | cons m ms ih =>
    rw [membersFor_cons] at h
    by_cases hp : foldName m.1 = foldName name
    · rw [if_pos hp] at h
      have hm : m = m0 := by injection h
      have hnil : membersFor name ms = [] := by injection h
      have hany : ¬ (ms.any (fun m' => decide (m'.1 = m.1)) = true) := by
        intro hany
        obtain ⟨m', hm', hk⟩ := List.any_eq_true.1 hany
        have hk' : m'.1 = m.1 := by simpa using hk
        have : m' ∈ membersFor name ms := (mem_membersFor name m' ms).2 ⟨hm', by rw [hk', hp]⟩
        rw [hnil] at this
        simp at this
      unfold mapMembers
      rw [if_neg hany, membersFor_cons, if_pos hp, membersFor_mapMembers_nil name ms hnil, hm]
    · rw [if_neg hp] at h
      unfold mapMembers
      split
      · exact ih h
      · rw [membersFor_cons, if_neg hp]
        exact ih h

/-- The one member for a field is still the one member for it after sorting. -/
theorem membersFor_insertionSort (name : String) (ms : List (String × Json))
    (r : String × Json → String × Json → Prop) [DecidableRel r] (m0 : String × Json)
    (h : membersFor name ms = [m0]) : membersFor name (ms.insertionSort r) = [m0] := by
  have hp : (membersFor name (ms.insertionSort r)).Perm (membersFor name ms) :=
    List.Perm.filter _ (List.perm_insertionSort r ms)
  rw [h] at hp
  exact List.perm_singleton.1 hp

/-- The one member for a field of the data object is the one member for it in
what `Marshal` writes. -/
theorem Marshal_obj (data : List (String × Json)) :
    ∃ ms, Marshal (.obj data) = .wellFormed (.obj ms) ∧
      ∀ name m0, membersFor name data = [m0] → membersFor name ms = [m0] :=
  ⟨_, rfl, fun name m0 h =>
    membersFor_insertionSort name _ _ m0 (membersFor_mapMembers name data m0 h)⟩

/-! ## The data of version 1 and version 2 -/

/-- Version 1: the one `response_bytes_utf8`, a valid base64 string, gives its
bytes. -/
theorem Unmarshal_V1Data_of_member (fl : Float64Rules) (data : List (String × Json))
    (k b64 : String) (bs : GoString)
    (h : membersFor "response_bytes_utf8" data = [(k, .str b64)])
    (hd : DecodeString b64.data = some bs) :
    Unmarshal_V1Data fl (Marshal (.obj data)) = .ok ⟨bs⟩ := by
  obtain ⟨ms, hM, hms⟩ := Marshal_obj data
  have hone := hms _ _ h
  rw [hM]
  show ms.foldlM (V1Data.decodeMember fl) ⟨[]⟩ = .ok ⟨bs⟩
  have hstep : ∀ st, V1Data.decodeMember fl st (k, .str b64) = .ok ⟨bs⟩ := by
    intro st
    have hk : foldName k = foldName "response_bytes_utf8" :=
      ((mem_membersFor "response_bytes_utf8" (k, .str b64) ms).1 (by rw [hone]; simp)).2
    simp [V1Data.decodeMember, hk, decodeBytes, hd, Except.map]
  obtain ⟨s, hs⟩ := foldlM_ok (V1Data.decodeMember fl) ms (by
    intro m hm st
    by_cases hp : foldName m.1 = foldName "response_bytes_utf8"
    · have : m ∈ membersFor "response_bytes_utf8" ms := (mem_membersFor _ _ _).2 ⟨hm, hp⟩
      rw [hone] at this
      have hm0 : m = (k, .str b64) := by simpa using this
      exact ⟨_, hm0 ▸ hstep st⟩
    · exact ⟨st, by simp [V1Data.decodeMember, hp]⟩) ⟨[]⟩
  have hf := (foldlM_field (V1Data.decodeMember fl)
    (fun m => decide (foldName m.1 = foldName "response_bytes_utf8")) V1Data.ResponseBytesUtf8
    (by
      intro st m st' hp hst
      have hp' : ¬ foldName m.1 = foldName "response_bytes_utf8" := by simpa using hp
      simp only [V1Data.decodeMember, if_neg hp'] at hst
      injection hst with hst
      rw [hst]) ms _ _ hs).2 (k, .str b64) bs hone (by
      intro st st' hst
      rw [hstep st] at hst
      injection hst with hst
      rw [← hst])
  rw [hs]
  cases s
  simp only [] at hf
  rw [hf]

/-- Version 1: the one `response_bytes_utf8`, a string that is not valid
base64, makes the decoding fail. -/
theorem Unmarshal_V1Data_corrupt (fl : Float64Rules) (data : List (String × Json))
    (k b64 : String) (h : membersFor "response_bytes_utf8" data = [(k, .str b64)])
    (hd : DecodeString b64.data = none) :
    ∃ e, Unmarshal_V1Data fl (Marshal (.obj data)) = .error e := by
  obtain ⟨ms, hM, hms⟩ := Marshal_obj data
  have hone := hms _ _ h
  rw [hM]
  show ∃ e, ms.foldlM (V1Data.decodeMember fl) ⟨[]⟩ = .error e
  have hmem := (mem_membersFor "response_bytes_utf8" (k, .str b64) ms).1 (by rw [hone]; simp)
  refine foldlM_error (V1Data.decodeMember fl) ms (k, .str b64) hmem.1 ?_ _
  intro st
  exact ⟨CorruptInputError, by simp [V1Data.decodeMember, hmem.2, decodeBytes, hd, Except.map]⟩

/-- Version 2: the one `response_str`, a string, gives its text. -/
theorem Unmarshal_V2Data_of_member (data : List (String × Json)) (k s : String)
    (h : membersFor "response_str" data = [(k, .str s)]) :
    Unmarshal_V2Data (Marshal (.obj data)) = .ok ⟨utf8 s⟩ := by
  obtain ⟨ms, hM, hms⟩ := Marshal_obj data
  have hone := hms _ _ h
  rw [hM]
  show ms.foldlM V2Data.decodeMember ⟨[]⟩ = .ok ⟨utf8 s⟩
  have hstep : ∀ st, V2Data.decodeMember st (k, .str s) = .ok ⟨utf8 s⟩ := by
    intro st
    have hk : foldName k = foldName "response_str" :=
      ((mem_membersFor "response_str" (k, .str s) ms).1 (by rw [hone]; simp)).2
    simp [V2Data.decodeMember, hk, decodeString, Except.map]
  obtain ⟨r, hr⟩ := foldlM_ok V2Data.decodeMember ms (by
    intro m hm st
    by_cases hp : foldName m.1 = foldName "response_str"
    · have : m ∈ membersFor "response_str" ms := (mem_membersFor _ _ _).2 ⟨hm, hp⟩
      rw [hone] at this
      have hm0 : m = (k, .str s) := by simpa using this
      exact ⟨_, hm0 ▸ hstep st⟩
    · exact ⟨st, by simp [V2Data.decodeMember, hp]⟩) ⟨[]⟩
  have hf := (foldlM_field V2Data.decodeMember
    (fun m => decide (foldName m.1 = foldName "response_str")) V2Data.ResponseStr
    (by
      intro st m st' hp hst
      have hp' : ¬ foldName m.1 = foldName "response_str" := by simpa using hp
      simp only [V2Data.decodeMember, if_neg hp'] at hst
      injection hst with hst
      rw [hst]) ms _ _ hr).2 (k, .str s) (utf8 s) hone (by
      intro st st' hst
      rw [hstep st] at hst
      injection hst with hst
      rw [← hst])
  rw [hr]
  cases r
  simp only [] at hf
  rw [hf]

/-! ## The envelope -/

/-- An object with exactly one well-typed member for each field of the envelope
decodes, and to the values of these members. -/
theorem Unmarshal_Scan_of_members (fl : Float64Rules) (ms : List (String × Json))
    (k1 k2 k3 k4 k5 k6 ip service : String) (port : Nat) (n4 n5 : JNumber) (ts ver : Int)
    (data : List (String × Json))
    (h1 : membersFor "ip" ms = [(k1, .str ip)])
    (h2 : membersFor "port" ms = [(k2, .num (.int false port))]) (hport : port < 2 ^ 32)
    (h3 : membersFor "service" ms = [(k3, .str service)])
    (h4 : membersFor "timestamp" ms = [(k4, .num n4)]) (hts : n4.intValue = some ts)
    (htslo : -(2 ^ 63 : Int) ≤ ts) (htshi : ts < (2 ^ 63 : Int))
    (h5 : membersFor "data_version" ms = [(k5, .num n5)]) (hver : n5.intValue = some ver)
    (hverlo : -(2 ^ 63 : Int) ≤ ver) (hverhi : ver < (2 ^ 63 : Int))
    (h6 : membersFor "data" ms = [(k6, .obj data)])
    (hdata : (Json.obj data).storable fl = true) :
    Unmarshal_Scan fl (.wellFormed (.obj ms))
      = .ok ⟨utf8 ip, port, utf8 service, ts, ver, some (.obj data)⟩ := by
  show ms.foldlM (Scan.decodeMember fl) Scan.zero = _
  have only : ∀ (name : String) (m m0 : String × Json), m ∈ ms →
      foldName m.1 = foldName name → membersFor name ms = [m0] → m = m0 := by
    intro name m m0 hm hk hf
    have : m ∈ membersFor name ms := (mem_membersFor name m ms).2 ⟨hm, hk⟩
    rw [hf] at this
    simpa using this
  obtain ⟨scan, hscan⟩ := foldlM_ok (Scan.decodeMember fl) ms (by
    intro m hm st
    rcases Scan.decodeMember_cases fl st m with h0 | ⟨hk, h0⟩ | ⟨hk, h0⟩ | ⟨hk, h0⟩ |
      ⟨hk, h0⟩ | ⟨hk, h0⟩ | ⟨hk, h0⟩
    · exact ⟨st, h0⟩
    · rw [h0, only _ m _ hm hk h1]
      exact ⟨_, rfl⟩
    · rw [h0, only _ m _ hm hk h2]
      simp only [decodeUint, if_pos hport]
      exact ⟨_, rfl⟩
    · rw [h0, only _ m _ hm hk h3]
      exact ⟨_, rfl⟩
    · rw [h0, only _ m _ hm hk h4, decodeInt_of_range 64 _ n4 ts hts htslo htshi]
      exact ⟨_, rfl⟩
    · rw [h0, only _ m _ hm hk h5, decodeInt_of_range 64 _ n5 ver hver hverlo hverhi]
      exact ⟨_, rfl⟩
    · rw [h0, only _ m _ hm hk h6]
      simp only [decodeInterface, hdata, if_true]
      exact ⟨_, rfl⟩) Scan.zero
  obtain ⟨-, -, -, -, -, -, f1, f2, f3, f4, f5, f6⟩ := Scan.fields_of_members fl ms scan hscan
  have e1 := f1 _ _ h1
  have e2 := f2 _ _ h2
  have e3 := f3 _ _ h3
  have e4 := f4 _ _ _ h4 hts
  have e5 := f5 _ _ _ h5 hver
  have e6 := f6 _ _ h6
  rw [hscan]
  cases scan
  simp only [Json.nonNull] at e1 e2 e3 e4 e5 e6
  rw [e1, e2, e3, e4, e5, e6]

/-- What `ParseScanMessage` does once the envelope is decoded and holds data. -/
theorem ParseScanMessage_of_scan (fl : Float64Rules) (data : Payload) (scan : Scan) (d : Json)
    (h : Unmarshal_Scan fl data = .ok scan) (hd : scan.Data = some d) :
    ParseScanMessage fl data =
      if scan.DataVersion = V1 then
        match Unmarshal_V1Data fl (Marshal d) with
        | .error err => .error (Errorf "failed to unmarshal V1 data: " err)
        | .ok v1 =>
          .ok { IP := scan.Ip, Port := scan.Port, Service := scan.Service,
                Timestamp := scan.Timestamp, Response := v1.ResponseBytesUtf8,
                DataVersion := scan.DataVersion }
      else if scan.DataVersion = V2 then
        match Unmarshal_V2Data (Marshal d) with
        | .error err => .error (Errorf "failed to unmarshal V2 data: " err)
        | .ok v2 =>
          .ok { IP := scan.Ip, Port := scan.Port, Service := scan.Service,
                Timestamp := scan.Timestamp, Response := v2.ResponseStr,
                DataVersion := scan.DataVersion }
      else .error (.errorString ("unknown data version: " ++ toString scan.DataVersion)) := by
  unfold ParseScanMessage
  simp only [h, hd]

/-- A failed envelope fails the message. -/
theorem ParseScanMessage_of_error (fl : Float64Rules) (data : Payload) (err : GoError)
    (h : Unmarshal_Scan fl data = .error err) :
    ParseScanMessage fl data = .error (Errorf "failed to unmarshal scan data: " err) := by
  unfold ParseScanMessage
  simp only [h]

/-- An envelope without data fails the message. -/
theorem ParseScanMessage_of_nil (fl : Float64Rules) (data : Payload) (scan : Scan)
    (h : Unmarshal_Scan fl data = .ok scan) (hd : scan.Data = none) :
    ParseScanMessage fl data = .error (.errorString "scan data is nil") := by
  unfold ParseScanMessage
  simp only [h, hd]

/-- A returned result carries the fields of the decoded envelope, which holds
data and has version 1 or 2. -/
theorem ParseScanMessage_ok_inv (fl : Float64Rules) (data : Payload) (r : ScanResult)
    (h : ParseScanMessage fl data = .ok r) :
    ∃ scan, Unmarshal_Scan fl data = .ok scan ∧ scan.Data ≠ none ∧
      (scan.DataVersion = 1 ∨ scan.DataVersion = 2) ∧
      r.IP = scan.Ip ∧ r.Port = scan.Port ∧ r.Service = scan.Service ∧
      r.Timestamp = scan.Timestamp ∧ r.DataVersion = scan.DataVersion := by
  cases hs : Unmarshal_Scan fl data with
  | error err =>
    rw [ParseScanMessage_of_error fl data err hs] at h
    cases h
  | ok scan =>
    cases hd : scan.Data with
    | none =>
      rw [ParseScanMessage_of_nil fl data scan hs hd] at h
      cases h
    | some d =>
      rw [ParseScanMessage_of_scan fl data scan d hs hd] at h
      refine ⟨scan, rfl, by simp [hd], ?_⟩
      by_cases h1 : scan.DataVersion = V1
      · rw [if_pos h1] at h
        cases hv : Unmarshal_V1Data fl (Marshal d) with
        | error e => rw [hv] at h; cases h
        | ok v1 =>
          rw [hv] at h
          injection h with h
          subst h
          exact ⟨Or.inl h1, rfl, rfl, rfl, rfl, rfl⟩
      · rw [if_neg h1] at h
        by_cases h2 : scan.DataVersion = V2
        · rw [if_pos h2] at h
          cases hv : Unmarshal_V2Data (Marshal d) with
          | error e => rw [hv] at h; cases h
          | ok v2 =>
            rw [hv] at h
            injection h with h
            subst h
            exact ⟨Or.inr h2, rfl, rfl, rfl, rfl, rfl⟩
        · rw [if_neg h2] at h
          cases h

/-- The result under version 1. -/
theorem ParseScanMessage_v1 (fl : Float64Rules) (data : Payload) (scan : Scan) (d : Json)
    (v1 : V1Data) (h : Unmarshal_Scan fl data = .ok scan) (hd : scan.Data = some d)
    (hv : scan.DataVersion = 1) (h1 : Unmarshal_V1Data fl (Marshal d) = .ok v1) :
    ParseScanMessage fl data
      = .ok { IP := scan.Ip, Port := scan.Port, Service := scan.Service,
              Timestamp := scan.Timestamp, Response := v1.ResponseBytesUtf8,
              DataVersion := 1 } := by
  rw [ParseScanMessage_of_scan fl data scan d h hd, if_pos (by rw [hv]; rfl), h1, hv]

/-- The result under version 2. -/
theorem ParseScanMessage_v2 (fl : Float64Rules) (data : Payload) (scan : Scan) (d : Json)
    (v2 : V2Data) (h : Unmarshal_Scan fl data = .ok scan) (hd : scan.Data = some d)
    (hv : scan.DataVersion = 2) (h2 : Unmarshal_V2Data (Marshal d) = .ok v2) :
    ParseScanMessage fl data
      = .ok { IP := scan.Ip, Port := scan.Port, Service := scan.Service,
              Timestamp := scan.Timestamp, Response := v2.ResponseStr,
              DataVersion := 2 } := by
  rw [ParseScanMessage_of_scan fl data scan d h hd, if_neg (by rw [hv]; decide),
    if_pos (by rw [hv]; rfl), h2, hv]

/-! ## A data object without its payload field -/

theorem membersFor_insertionSort_nil (name : String) (ms : List (String × Json))
    (r : String × Json → String × Json → Prop) [DecidableRel r]
    (h : membersFor name ms = []) : membersFor name (ms.insertionSort r) = [] := by
  have hp : (membersFor name (ms.insertionSort r)).Perm (membersFor name ms) :=
    List.Perm.filter _ (List.perm_insertionSort r ms)
  rw [h] at hp
  exact List.perm_nil.1 hp

/-- A field with no member in the data object has none in what `Marshal`
writes. -/
theorem Marshal_obj_nil (data : List (String × Json)) :
    ∃ ms, Marshal (.obj data) = .wellFormed (.obj ms) ∧
      ∀ name, membersFor name data = [] → membersFor name ms = [] :=
  ⟨_, rfl, fun name h =>
    membersFor_insertionSort_nil name _ _ (membersFor_mapMembers_nil name data h)⟩

/-- Version 1: without a `response_bytes_utf8` the decoded bytes are empty. -/
theorem Unmarshal_V1Data_absent (fl : Float64Rules) (data : List (String × Json))
    (v1 : V1Data) (h : Unmarshal_V1Data fl (Marshal (.obj data)) = .ok v1)
    (habs : membersFor "response_bytes_utf8" data = []) : v1.ResponseBytesUtf8 = [] := by
  obtain ⟨ms, hM, hms⟩ := Marshal_obj_nil data
  rw [hM] at h
  have h' : ms.foldlM (V1Data.decodeMember fl) ⟨[]⟩ = .ok v1 := h
  exact (foldlM_field (V1Data.decodeMember fl)
    (fun m => decide (foldName m.1 = foldName "response_bytes_utf8")) V1Data.ResponseBytesUtf8
    (by
      intro st m st' hp hst
      have hp' : ¬ foldName m.1 = foldName "response_bytes_utf8" := by simpa using hp
      simp only [V1Data.decodeMember, if_neg hp'] at hst
      injection hst with hst
      rw [hst]) ms _ _ h').1 (hms _ habs)

/-- Version 2: without a `response_str` the decoded text is empty. -/
theorem Unmarshal_V2Data_absent (data : List (String × Json))
    (v2 : V2Data) (h : Unmarshal_V2Data (Marshal (.obj data)) = .ok v2)
    (habs : membersFor "response_str" data = []) : v2.ResponseStr = [] := by
  obtain ⟨ms, hM, hms⟩ := Marshal_obj_nil data
  rw [hM] at h
  have h' : ms.foldlM V2Data.decodeMember ⟨[]⟩ = .ok v2 := h
  exact (foldlM_field V2Data.decodeMember
    (fun m => decide (foldName m.1 = foldName "response_str")) V2Data.ResponseStr
    (by
      intro st m st' hp hst
      have hp' : ¬ foldName m.1 = foldName "response_str" := by simpa using hp
      simp only [V2Data.decodeMember, if_neg hp'] at hst
      injection hst with hst
      rw [hst]) ms _ _ h').1 (hms _ habs)

/-- Where the response of a returned result comes from: the data of the
envelope, decoded under version 1 or under version 2. -/
theorem ParseScanMessage_ok_response (fl : Float64Rules) (data : Payload) (r : ScanResult)
    (h : ParseScanMessage fl data = .ok r) :
    ∃ scan d, Unmarshal_Scan fl data = .ok scan ∧ scan.Data = some d ∧
      r.DataVersion = scan.DataVersion ∧
      ((scan.DataVersion = 1 ∧
          ∃ v1, Unmarshal_V1Data fl (Marshal d) = .ok v1 ∧ r.Response = v1.ResponseBytesUtf8) ∨
       (scan.DataVersion = 2 ∧
          ∃ v2, Unmarshal_V2Data (Marshal d) = .ok v2 ∧ r.Response = v2.ResponseStr)) := by
  cases hs : Unmarshal_Scan fl data with
  | error err =>
    rw [ParseScanMessage_of_error fl data err hs] at h
    cases h
  | ok scan =>
    cases hd : scan.Data with
    | none =>
      rw [ParseScanMessage_of_nil fl data scan hs hd] at h
      cases h
    | some d =>
      rw [ParseScanMessage_of_scan fl data scan d hs hd] at h
      refine ⟨scan, d, rfl, hd, ?_⟩
      by_cases h1 : scan.DataVersion = V1
      · rw [if_pos h1] at h
        cases hv : Unmarshal_V1Data fl (Marshal d) with
        | error e => rw [hv] at h; cases h
        | ok v1 =>
          rw [hv] at h
          injection h with h
          subst h
          exact ⟨rfl, Or.inl ⟨h1, v1, rfl, rfl⟩⟩
      · rw [if_neg h1] at h
        by_cases h2 : scan.DataVersion = V2
        · rw [if_pos h2] at h
          cases hv : Unmarshal_V2Data (Marshal d) with
          | error e => rw [hv] at h; cases h
          | ok v2 =>
            rw [hv] at h
            injection h with h
            subst h
            exact ⟨rfl, Or.inr ⟨h2, v2, rfl, rfl⟩⟩
        · rw [if_neg h2] at h
          cases h

/-! ## The manager and the handler, case by case -/

theorem PutScan_of_none {σ : Type} (m : scanManager σ) (s s' : σ) (result : ScanResult)
    (h : m.repo.Put s result = (none, s')) :
    m.PutScan s result
      = (none, s', [utf8 "scan result stored: " ++ fmtPlusV result ++ [10]]) := by
  simp only [scanManager.PutScan, h]

theorem PutScan_of_some {σ : Type} (m : scanManager σ) (s s' : σ) (result : ScanResult)
    (err : GoError) (h : m.repo.Put s result = (some err, s')) :
    m.PutScan s result = (some (Errorf "failed to put scan: " err), s', []) := by
  simp only [scanManager.PutScan, h]

/-- The repository is left as one `Put` of the result leaves it. -/
theorem PutScan_state {σ : Type} (m : scanManager σ) (s : σ) (result : ScanResult) :
    (m.PutScan s result).2.1 = (m.repo.Put s result).2 := by
  rcases h : m.repo.Put s result with ⟨_ | err, s'⟩
  · rw [PutScan_of_none m s s' result h]
  · rw [PutScan_of_some m s s' result err h]

/-- The error of `PutScan` is the error of `Put`, wrapped. -/
theorem PutScan_error {σ : Type} (m : scanManager σ) (s : σ) (result : ScanResult) :
    (m.PutScan s result).1
      = (m.repo.Put s result).1.map (fun err => Errorf "failed to put scan: " err) := by
  rcases h : m.repo.Put s result with ⟨_ | err, s'⟩
  · rw [PutScan_of_none m s s' result h]
    rfl
  · rw [PutScan_of_some m s s' result err h]
    rfl

/-- A recording repository answers as the repository it records. -/
theorem recording_Put_fst {σ : Type} (repo : Repository σ) (s : σ) (log : List ScanResult)
    (result : ScanResult) :
    (repo.recording.Put (s, log) result).1 = (repo.Put s result).1 := rfl

theorem recording_Put_snd {σ : Type} (repo : Repository σ) (s : σ) (log : List ScanResult)
    (result : ScanResult) :
    (repo.recording.Put (s, log) result).2 = ((repo.Put s result).2, log ++ [result]) := rfl

theorem handler_of_error {σ : Type} (fl : Float64Rules) (manager : scanManager σ)
    (c : Consumer σ) (msg : Message) (err : GoError)
    (h : ParseScanMessage fl msg.Data = .error err) :
    runConsumer.handler fl manager c msg =
      ({ c with
          stdout := c.stdout ++ [utf8 ("Error parsing scan message: " ++ err.Error) ++ [10]],
          failed := addOne c.failed },
        [.Nack]) := by
  simp only [runConsumer.handler, h]

theorem handler_of_put_error {σ : Type} (fl : Float64Rules) (manager : scanManager σ)
    (c : Consumer σ) (msg : Message) (result : ScanResult) (err : GoError) (s' : σ)
    (out : List GoString) (h : ParseScanMessage fl msg.Data = .ok result)
    (hp : manager.PutScan c.repo result = (some err, s', out)) :
    runConsumer.handler fl manager c msg =
      ({ c with
          repo := s',
          stdout := c.stdout ++ out ++ [utf8 ("Error storing scan: " ++ err.Error) ++ [10]],
          failed := addOne c.failed },
        [.Nack]) := by
  simp only [runConsumer.handler, h, hp]

theorem handler_of_stored {σ : Type} (fl : Float64Rules) (manager : scanManager σ)
    (c : Consumer σ) (msg : Message) (result : ScanResult) (s' : σ)
    (out : List GoString) (h : ParseScanMessage fl msg.Data = .ok result)
    (hp : manager.PutScan c.repo result = (none, s', out)) :
    runConsumer.handler fl manager c msg =
      ({ c with
          repo := s',
          stdout := c.stdout ++ out,
          processed := addOne c.processed },
        [.Ack]) := by
  simp only [runConsumer.handler, h, hp]

/-- The handler by cases: decoding fails; decoding succeeds and `PutScan`
fails; decoding succeeds and `PutScan` returns no error. -/
theorem handler_cases {σ : Type} (fl : Float64Rules) (manager : scanManager σ)
    (c : Consumer σ) (msg : Message) :
    (∃ err, ParseScanMessage fl msg.Data = .error err ∧
      (runConsumer.handler fl manager c msg).2 = [.Nack] ∧
      (runConsumer.handler fl manager c msg).1.repo = c.repo) ∨
    (∃ result err, ParseScanMessage fl msg.Data = .ok result ∧
      (manager.PutScan c.repo result).1 = some err ∧
      (runConsumer.handler fl manager c msg).2 = [.Nack] ∧
      (runConsumer.handler fl manager c msg).1.repo = (manager.PutScan c.repo result).2.1) ∨
    (∃ result, ParseScanMessage fl msg.Data = .ok result ∧
      (manager.PutScan c.repo result).1 = none ∧
      (runConsumer.handler fl manager c msg).2 = [.Ack] ∧
      (runConsumer.handler fl manager c msg).1.repo = (manager.PutScan c.repo result).2.1) := by
  cases h : ParseScanMessage fl msg.Data with
  | error err =>
    rw [handler_of_error fl manager c msg err h]
    exact Or.inl ⟨err, rfl, rfl, rfl⟩
  | ok result =>
    rcases hp : manager.PutScan c.repo result with ⟨_ | err, s', out⟩
    · rw [handler_of_stored fl manager c msg result s' out h hp]
      exact Or.inr (Or.inr ⟨result, rfl, by rw [hp], rfl, by rw [hp]⟩)
    · rw [handler_of_put_error fl manager c msg result err s' out h hp]
      exact Or.inr (Or.inl ⟨result, err, rfl, by rw [hp], rfl, by rw [hp]⟩)

/-! ## Claims on `dynamoDB.Put` -/

/-- C1 as stated fails: the version 1 message whose response is the base64
text of the bytes `FF FE` decodes to a result with that response; written to
the empty table, the record stored for it holds U+FFFD twice (`EF BF BD EF BF
BD`) as its response, not the response of the result. -/
theorem put_stores_replacement_characters :
    ParseScanMessage Float64Rules.plain (envelope "10.0.0.1" 80 "http" 7 1
        (.obj [("response_bytes_utf8", .str "//4=")]))
      = .ok ⟨utf8 "10.0.0.1", 80, utf8 "http", 7, [0xFF, 0xFE], 1⟩ ∧
    Table.empty (pkOf (utf8 "10.0.0.1") 80 (utf8 "http")) = none ∧
    ((store.Put Table.empty ⟨utf8 "10.0.0.1", 80, utf8 "http", 7, [0xFF, 0xFE], 1⟩).2
        (pkOf (utf8 "10.0.0.1") 80 (utf8 "http"))).map (fun it => it.response)
      = some [0xEF, 0xBF, 0xBD, 0xEF, 0xBF, 0xBD] ∧
    ([0xEF, 0xBF, 0xBD, 0xEF, 0xBF, 0xBD] : GoString) ≠ [0xFF, 0xFE] :=
  ⟨rfl, rfl, by decide, by decide⟩

/-- C1, amended: from every table and for every result `r`, `Put` writes `r` as
the client transmits it (the key, ip, service and response with U+FFFD for
every byte that is not well-formed UTF-8, the port, timestamp and data_version
as they are) over whatever is stored at the key of `r` when no record is stored
there or the stored timestamp is strictly below `r.Timestamp`, and in every
other case it leaves the table as it was; it returns no error either way.  For
a result whose ip, service and response are well-formed UTF-8 (transmitted as
they are) the key is the composite key of `r` and the record written is `r`
itself. -/
theorem put_writes_iff_absent_or_older (t : Table) (r : ScanResult) :
    ((t (keyOf r) = none ∨ ∃ old, t (keyOf r) = some old ∧ old.timestamp < r.Timestamp) →
      store.Put t r = (none, t.put (keyOf r)
        { pk := wireString (pkOf r.IP r.Port r.Service), ip := wireString r.IP,
          port := Int.ofNat r.Port, service := wireString r.Service,
          timestamp := r.Timestamp, response := wireString r.Response,
          data_version := r.DataVersion })) ∧
    (¬ (t (keyOf r) = none ∨ ∃ old, t (keyOf r) = some old ∧ old.timestamp < r.Timestamp) →
      store.Put t r = (none, t)) ∧
    (wireString r.IP = r.IP → wireString r.Service = r.Service →
      wireString r.Response = r.Response →
      ((t (pkOf r.IP r.Port r.Service) = none ∨
          ∃ old, t (pkOf r.IP r.Port r.Service) = some old ∧ old.timestamp < r.Timestamp) →
        store.Put t r = (none, t.put (pkOf r.IP r.Port r.Service)
          { pk := pkOf r.IP r.Port r.Service, ip := r.IP, port := Int.ofNat r.Port,
            service := r.Service, timestamp := r.Timestamp, response := r.Response,
            data_version := r.DataVersion })) ∧
      (¬ (t (pkOf r.IP r.Port r.Service) = none ∨
          ∃ old, t (pkOf r.IP r.Port r.Service) = some old ∧ old.timestamp < r.Timestamp) →
        store.Put t r = (none, t))) := by
  have general :
      ((t (keyOf r) = none ∨ ∃ old, t (keyOf r) = some old ∧ old.timestamp < r.Timestamp) →
        store.Put t r = (none, t.put (keyOf r) (storedItem r))) ∧
      (¬ (t (keyOf r) = none ∨ ∃ old, t (keyOf r) = some old ∧ old.timestamp < r.Timestamp) →
        store.Put t r = (none, t)) := by
    rw [← specAccept_iff, store_Put_eq]
    constructor
    · intro h
      rw [if_pos h]
    · intro h
      rw [if_neg h]
  refine ⟨general.1, general.2, ?_⟩
  intro hIP hService hResponse
  have hk := keyOf_eq_pkOf r hIP hService
  have hi := storedItem_eq_itemOf r hIP hService hResponse
  rw [hk, hi] at general
  exact general

/-- Witness of C1, amended: the newer message of the out-of-order test, all
ASCII, is written to the empty table as it is, under its composite key. -/
theorem put_writes_witness :
    store.Put Table.empty
        ⟨utf8 "172.16.0.1", 443, utf8 "https", 5000000000, utf8 "newer response", 2⟩
      = (none, Table.empty.put (pkOf (utf8 "172.16.0.1") 443 (utf8 "https"))
          { pk := pkOf (utf8 "172.16.0.1") 443 (utf8 "https"), ip := utf8 "172.16.0.1",
            port := 443, service := utf8 "https", timestamp := 5000000000,
            response := utf8 "newer response", data_version := 2 }) :=
  ((put_writes_iff_absent_or_older Table.empty
      ⟨utf8 "172.16.0.1", 443, utf8 "https", 5000000000, utf8 "newer response", 2⟩).2.2
    (wireString_utf8 _) (wireString_utf8 _) (wireString_utf8 _)).1 (Or.inl rfl)

/-- C2, evaluated where it fails: the results `("a#1", 2, "x")` at timestamp 5
and `("a", 1, "2#x")` at timestamp 9 share the composite key `a#1#2#x`, so
after both writes the record found for the first tuple has timestamp 9, while
the greatest timestamp among the results with that tuple is 5. -/
theorem max_timestamp_fails_on_colliding_keys :
    ((putAll Table.empty
        [⟨utf8 "a#1", 2, utf8 "x", 5, utf8 "first", 2⟩,
         ⟨utf8 "a", 1, utf8 "2#x", 9, utf8 "second", 2⟩]
        (pkOf (utf8 "a#1") 2 (utf8 "x"))).map (fun it => it.timestamp) = some 9) ∧
    specMaxTimestamp (utf8 "a#1") 2 (utf8 "x")
        [⟨utf8 "a#1", 2, utf8 "x", 5, utf8 "first", 2⟩,
         ⟨utf8 "a", 1, utf8 "2#x", 9, utf8 "second", 2⟩] = some 5 := by
  decide

/-- C3 as stated fails: two results for the same host, port and service, the
later one with the response `FF`; in either order the record left at their key
has the response U+FFFD (`EF BF BD`), not the response of the later result. -/
theorem put_either_order_stores_replacement_character :
    ((putAll Table.empty
        [⟨utf8 "10.0.0.1", 80, utf8 "http", 1, utf8 "old", 1⟩,
         ⟨utf8 "10.0.0.1", 80, utf8 "http", 2, [0xFF], 1⟩]
        (pkOf (utf8 "10.0.0.1") 80 (utf8 "http"))).map (fun it => (it.timestamp, it.response))
      = some (2, [0xEF, 0xBF, 0xBD])) ∧
    ((putAll Table.empty
        [⟨utf8 "10.0.0.1", 80, utf8 "http", 2, [0xFF], 1⟩,
         ⟨utf8 "10.0.0.1", 80, utf8 "http", 1, utf8 "old", 1⟩]
        (pkOf (utf8 "10.0.0.1") 80 (utf8 "http"))).map (fun it => (it.timestamp, it.response))
      = some (2, [0xEF, 0xBF, 0xBD])) ∧
    ([0xEF, 0xBF, 0xBD] : GoString) ≠ [0xFF] := by
  decide

/-- C3, amended: for two results with the same host, port and service and
timestamps `T1 < T2`, on a table with no record at their key, writing them in
either order leaves the same record at that key, the later result as the
client transmits it: its timestamp is `T2` and its response is the response of
the later result with U+FFFD for every byte that is not well-formed UTF-8, so
that response itself when it is well-formed UTF-8; the two tables are equal. -/
theorem put_two_either_order (t : Table) (a b : ScanResult)
    (hip : a.IP = b.IP) (hport : a.Port = b.Port) (hsvc : a.Service = b.Service)
    (hts : a.Timestamp < b.Timestamp) (hfree : t (keyOf a) = none) :
    putAll t [a, b] (keyOf a) = some (storedItem b) ∧
    putAll t [b, a] (keyOf a) = some (storedItem b) ∧
    (storedItem b).timestamp = b.Timestamp ∧
    (storedItem b).response = wireString b.Response ∧
    (wireString b.Response = b.Response → (storedItem b).response = b.Response) ∧
    putAll t [a, b] = putAll t [b, a] := by
  have hk : keyOf b = keyOf a := by
    unfold keyOf
    rw [hip, hport, hsvc]
  have ha : putTable t a = t.put (keyOf a) (storedItem a) := by
    rw [putTable_eq, if_pos ((specAccept_iff t a).2 (Or.inl hfree))]
  have hb : putTable t b = t.put (keyOf a) (storedItem b) := by
    rw [putTable_eq, if_pos ((specAccept_iff t b).2 (Or.inl (hk ▸ hfree))), hk]
  have hab : putTable (putTable t a) b = t.put (keyOf a) (storedItem b) := by
    have hacc : specAccept (putTable t a) b = true := by
      rw [specAccept_iff, hk, ha, Table.put_same]
      exact Or.inr ⟨storedItem a, rfl, hts⟩
    rw [putTable_eq, if_pos hacc, hk, ha]
    funext k
    by_cases h : k = keyOf a <;> simp [Table.put, h]
  have hba : putTable (putTable t b) a = t.put (keyOf a) (storedItem b) := by
    have hrej : ¬ specAccept (putTable t b) a = true := by
      rw [specAccept_iff, hb, Table.put_same]
      rintro (h | ⟨old, hold, hlt⟩)
      · cases h
      · have : storedItem b = old := by simpa using hold
        subst this
        have : b.Timestamp < a.Timestamp := hlt
        omega
    rw [putTable_eq, if_neg hrej, hb]
  have e1 : putAll t [a, b] = putTable (putTable t a) b := rfl
  have e2 : putAll t [b, a] = putTable (putTable t b) a := rfl
  rw [e1, e2, hab, hba]
  exact ⟨Table.put_same _ _ _, Table.put_same _ _ _, rfl, rfl, fun h => h, rfl⟩

/-- Witness of C3, amended: the two messages of the out-of-order integration
test. -/
theorem put_two_either_order_witness :
    putAll Table.empty
        [⟨utf8 "172.16.0.1", 443, utf8 "https", 3000000000, utf8 "older response", 2⟩,
         ⟨utf8 "172.16.0.1", 443, utf8 "https", 5000000000, utf8 "newer response", 2⟩]
        (pkOf (utf8 "172.16.0.1") 443 (utf8 "https"))
      = some (itemOf ⟨utf8 "172.16.0.1", 443, utf8 "https", 5000000000,
          utf8 "newer response", 2⟩) ∧
    putAll Table.empty
        [⟨utf8 "172.16.0.1", 443, utf8 "https", 5000000000, utf8 "newer response", 2⟩,
         ⟨utf8 "172.16.0.1", 443, utf8 "https", 3000000000, utf8 "older response", 2⟩]
        (pkOf (utf8 "172.16.0.1") 443 (utf8 "https"))
      = some (itemOf ⟨utf8 "172.16.0.1", 443, utf8 "https", 5000000000,
          utf8 "newer response", 2⟩) :=
  have h := put_two_either_order Table.empty
    ⟨utf8 "172.16.0.1", 443, utf8 "https", 3000000000, utf8 "older response", 2⟩
    ⟨utf8 "172.16.0.1", 443, utf8 "https", 5000000000, utf8 "newer response", 2⟩
    rfl rfl rfl (by decide) rfl
  ⟨h.1, h.2.1⟩

/-- C4: when the table already holds a record at the key of `r` whose timestamp
equals `r.Timestamp`, `Put` returns no error and leaves the table as it was,
whatever the response of `r`; and from every table, a second `Put` of the same
result changes nothing after the first.  The key of `r` is the key the store
files it under, which is the composite key of `r` when its ip and service are
well-formed UTF-8. -/
theorem put_tie_keeps_existing_and_idempotent (t : Table) (r : ScanResult) :
    (∀ old, t (keyOf r) = some old → old.timestamp = r.Timestamp →
      store.Put t r = (none, t)) ∧
    (store.Put (store.Put t r).2 r).2 = (store.Put t r).2 ∧
    (wireString r.IP = r.IP → wireString r.Service = r.Service →
      ∀ old, t (pkOf r.IP r.Port r.Service) = some old → old.timestamp = r.Timestamp →
        store.Put t r = (none, t)) := by
  have tie : ∀ old, t (keyOf r) = some old → old.timestamp = r.Timestamp →
      store.Put t r = (none, t) := by
    intro old hold hts
    have hrej : ¬ specAccept t r = true := by
      rw [specAccept_iff]
      rintro (h | ⟨old', hold', hlt⟩)
      · rw [hold] at h; cases h
      · rw [hold] at hold'
        have : old = old' := by simpa using hold'
        subst this
        omega
    rw [store_Put_eq, if_neg hrej]
  refine ⟨tie, ?_, ?_⟩
  · show putTable (putTable t r) r = putTable t r
    by_cases hacc : specAccept t r = true
    · have h1 : putTable t r = t.put (keyOf r) (storedItem r) := by
        rw [putTable_eq, if_pos hacc]
      have hrej : ¬ specAccept (putTable t r) r = true := by
        rw [specAccept_iff, h1, Table.put_same]
        rintro (h | ⟨old, hold, hlt⟩)
        · cases h
        · have : storedItem r = old := by simpa using hold
          subst this
          exact lt_irrefl _ hlt
      rw [putTable_eq (putTable t r) r, if_neg hrej]
    · have h1 : putTable t r = t := by rw [putTable_eq, if_neg hacc]
      rw [h1, h1]
  · intro hIP hService old hold hts
    rw [← keyOf_eq_pkOf r hIP hService] at hold
    exact tie old hold hts

/-- Witness of C4: timestamp 7 with response "X" is stored, then the same key
and timestamp arrive with response "Y": the table is unchanged and still
answers "X". -/
theorem put_tie_keeps_existing_witness :
    store.Put (putTable Table.empty ⟨utf8 "10.0.0.1", 80, utf8 "http", 7, utf8 "X", 2⟩)
        ⟨utf8 "10.0.0.1", 80, utf8 "http", 7, utf8 "Y", 2⟩
      = (none, putTable Table.empty ⟨utf8 "10.0.0.1", 80, utf8 "http", 7, utf8 "X", 2⟩) ∧
    (putTable Table.empty ⟨utf8 "10.0.0.1", 80, utf8 "http", 7, utf8 "X", 2⟩
        (pkOf (utf8 "10.0.0.1") 80 (utf8 "http"))).map (fun it => it.response)
      = some (utf8 "X") :=
  ⟨(put_tie_keeps_existing_and_idempotent
      (putTable Table.empty ⟨utf8 "10.0.0.1", 80, utf8 "http", 7, utf8 "X", 2⟩)
      ⟨utf8 "10.0.0.1", 80, utf8 "http", 7, utf8 "Y", 2⟩).1
      (itemOf ⟨utf8 "10.0.0.1", 80, utf8 "http", 7, utf8 "X", 2⟩) (by decide) rfl,
    by decide⟩

/-- C5, evaluated where it fails: the tuples `("a#1", 2, "x")` and
`("a", 1, "2#x")` differ, yet both have the composite key `a#1#2#x`; after the
second tuple is stored, the write of the first replaces the record read back
for the second. -/
theorem distinct_tuples_share_a_key :
    ((utf8 "a#1", 2, utf8 "x") : GoString × Nat × GoString) ≠ (utf8 "a", 1, utf8 "2#x") ∧
    pkOf (utf8 "a#1") 2 (utf8 "x") = pkOf (utf8 "a") 1 (utf8 "2#x") ∧
    putTable Table.empty ⟨utf8 "a", 1, utf8 "2#x", 1, utf8 "B", 2⟩
        (pkOf (utf8 "a") 1 (utf8 "2#x"))
      = some (itemOf ⟨utf8 "a", 1, utf8 "2#x", 1, utf8 "B", 2⟩) ∧
    putTable (putTable Table.empty ⟨utf8 "a", 1, utf8 "2#x", 1, utf8 "B", 2⟩)
        ⟨utf8 "a#1", 2, utf8 "x", 2, utf8 "A", 2⟩ (pkOf (utf8 "a") 1 (utf8 "2#x"))
      = some (itemOf ⟨utf8 "a#1", 2, utf8 "x", 2, utf8 "A", 2⟩) ∧
    itemOf ⟨utf8 "a#1", 2, utf8 "x", 2, utf8 "A", 2⟩
      ≠ itemOf ⟨utf8 "a", 1, utf8 "2#x", 1, utf8 "B", 2⟩ := by
  decide

/-- C6: whatever the client answers, `Put` returns no error when `PutItem`
succeeds and when it fails with an error whose chain holds a
conditional-check failure, and for every other failure it returns the error
"failed to put item to DynamoDB: ..." that wraps the failure of the client. -/
theorem put_error_mapping (d : dynamoDB) (t : Table) (r : ScanResult) :
    (∀ t', d.client.PutItem t (putItemInput r) = (none, t') → d.Put t r = (none, t')) ∧
    (∀ err t', d.client.PutItem t (putItemInput r) = (some err, t') →
      err.AsConditionalCheckFailed = true → d.Put t r = (none, t')) ∧
    (∀ err t', d.client.PutItem t (putItemInput r) = (some err, t') →
      err.AsConditionalCheckFailed = false →
      ∃ e, d.Put t r = (some e, t') ∧ e.Unwrap = some err ∧
        e.Error = "failed to put item to DynamoDB: " ++ err.Error) := by
  refine ⟨?_, ?_, ?_⟩
  · intro t' h
    simp [dynamoDB.Put, h]
  · intro err t' h has
    simp [dynamoDB.Put, h, has]
  · intro err t' h has
    refine ⟨Errorf "failed to put item to DynamoDB: " err, ?_, rfl, rfl⟩
    simp [dynamoDB.Put, h, has]

/-- Witness of C6: a stale write on a reachable table is no error, and a
refused connection comes back wrapped. -/
theorem put_error_mapping_witness :
    store.Put (putTable Table.empty ⟨utf8 "10.0.0.1", 80, utf8 "http", 7, utf8 "X", 2⟩)
        ⟨utf8 "10.0.0.1", 80, utf8 "http", 3, utf8 "Y", 2⟩
      = (none, putTable Table.empty ⟨utf8 "10.0.0.1", 80, utf8 "http", 7, utf8 "X", 2⟩) ∧
    ∃ e, (dynamoDB.mk Client.unreachable).Put Table.empty
          ⟨utf8 "10.0.0.1", 80, utf8 "http", 3, utf8 "Y", 2⟩ = (some e, Table.empty) ∧
      e.Unwrap = some (.wrapError "operation error DynamoDB: PutItem, "
        (.errorString "dial tcp: connection refused")) ∧
      e.Error = "failed to put item to DynamoDB: " ++
        "operation error DynamoDB: PutItem, dial tcp: connection refused" :=
  ⟨(put_error_mapping store
      (putTable Table.empty ⟨utf8 "10.0.0.1", 80, utf8 "http", 7, utf8 "X", 2⟩)
      ⟨utf8 "10.0.0.1", 80, utf8 "http", 3, utf8 "Y", 2⟩).2.1 conditionalCheckFailed _
      (by
        show DynamoDB.client.PutItem _ _ = _
        rw [client_PutItem_eq, if_neg (by decide)])
      rfl,
    (put_error_mapping (dynamoDB.mk Client.unreachable) Table.empty
      ⟨utf8 "10.0.0.1", 80, utf8 "http", 3, utf8 "Y", 2⟩).2.2 _ Table.empty rfl rfl⟩

/-! ## Claims on `ParseScanMessage` -/

/-- C7: for every well-formed message whose data_version is 1 or 2,
`ParseScanMessage` succeeds, and the result carries the ip, port, service,
timestamp and data_version of the envelope; its response holds the bytes that
the base64 text of `response_bytes_utf8` decodes to (version 1), or the text of
`response_str` as it is (version 2). -/
theorem parse_well_formed (fl : Float64Rules) (members : List (String × Json)) (ip : String)
    (port : Nat) (service : String) (timestamp : Int) (data_version : Int)
    (response : GoString)
    (h : WellFormedMessage fl members ip port service timestamp data_version response)
    (hv : data_version = 1 ∨ data_version = 2) :
    ParseScanMessage fl (.wellFormed (.obj members))
      = .ok { IP := utf8 ip, Port := port, Service := utf8 service, Timestamp := timestamp,
              Response := response, DataVersion := data_version } := by
  obtain ⟨h1, ⟨h2, hport⟩, h3, ⟨n4, h4, hts, hlo, hhi⟩, ⟨n5, h5, hver⟩, data, h6, hdata, hresp⟩ := h
  have hs := Unmarshal_Scan_of_members fl members _ _ _ _ _ _ ip service port n4 n5 timestamp
    data_version data h1 h2 hport h3 h4 hts hlo hhi h5 hver
    (by rcases hv with hv | hv <;> rw [hv] <;> decide)
    (by rcases hv with hv | hv <;> rw [hv] <;> decide) h6 hdata
  rcases hresp with ⟨hv1, b64, hb, hdec⟩ | ⟨hv2, s, hstr, hr⟩
  · subst hv1
    exact ParseScanMessage_v1 fl _ _ _ _ hs rfl rfl
      (Unmarshal_V1Data_of_member fl data _ b64 response hb hdec)
  · subst hv2
    rw [hr]
    exact ParseScanMessage_v2 fl _ _ _ _ hs rfl rfl
      (Unmarshal_V2Data_of_member data _ s hstr)

/-- Witness of C7: the message of `TestParseScanMessage_V1`, the base64 text
of "hello world" under version 1. -/
theorem parse_well_formed_witness :
    ParseScanMessage Float64Rules.plain
        (.wellFormed (.obj [("ip", .str "192.168.1.1"), ("port", .num (.int false 80)),
          ("service", .str "http"), ("timestamp", .num (.int false 1234567890)),
          ("data_version", .num (.int false 1)),
          ("data", .obj [("response_bytes_utf8", .str "aGVsbG8gd29ybGQ=")])]))
      = .ok { IP := utf8 "192.168.1.1", Port := 80, Service := utf8 "http",
              Timestamp := 1234567890, Response := utf8 "hello world", DataVersion := 1 } :=
  parse_well_formed Float64Rules.plain _ "192.168.1.1" 80 "http" 1234567890 1 (utf8 "hello world")
    ⟨rfl, ⟨rfl, by decide⟩, rfl, ⟨_, rfl, rfl, by decide, by decide⟩, ⟨_, rfl, rfl⟩,
      _, rfl, rfl, Or.inl ⟨rfl, _, rfl, by decide⟩⟩
    (Or.inl rfl)

/-- C8: for every text `S` and every ip, port, service and timestamp, the
version 1 message that carries the base64 text of `S` and the version 2 message
that carries `S` itself both decode, to results with the same response, the
bytes of `S`, and the same ip, port, service and timestamp. -/
theorem version_equivalence (fl : Float64Rules) (S ip service : String) (port : Nat)
    (timestamp : Int) (hport : port < 2 ^ 32)
    (hlo : -(2 ^ 63 : Int) ≤ timestamp) (hhi : timestamp < (2 ^ 63 : Int)) :
    ParseScanMessage fl (envelope ip port service timestamp 1
        (.obj [("response_bytes_utf8", .str (String.mk (EncodeToString (utf8 S))))]))
      = .ok { IP := utf8 ip, Port := port, Service := utf8 service, Timestamp := timestamp,
              Response := utf8 S, DataVersion := 1 } ∧
    ParseScanMessage fl (envelope ip port service timestamp 2
        (.obj [("response_str", .str S)]))
      = .ok { IP := utf8 ip, Port := port, Service := utf8 service, Timestamp := timestamp,
              Response := utf8 S, DataVersion := 2 } := by
  have hint : (JNumber.ofInt timestamp).intValue = some timestamp := by
    unfold JNumber.ofInt JNumber.intValue
    by_cases hneg : timestamp < 0
    · simp only [hneg, decide_True, if_true, Option.some.injEq]
      omega
    · simp only [hneg, decide_False, Bool.false_eq_true, if_false, Option.some.injEq]
      omega
  constructor
  · have hs := Unmarshal_Scan_of_members fl
      [("ip", .str ip), ("port", .num (.int false port)), ("service", .str service),
        ("timestamp", .num (JNumber.ofInt timestamp)), ("data_version", .num (.int false 1)),
        ("data", .obj [("response_bytes_utf8", .str (String.mk (EncodeToString (utf8 S))))])]
      "ip" "port" "service" "timestamp" "data_version"
      "data" ip service port (JNumber.ofInt timestamp) (.int false 1) timestamp 1
      [("response_bytes_utf8", .str (String.mk (EncodeToString (utf8 S))))]
      rfl rfl hport rfl rfl hint hlo hhi rfl rfl (by decide) (by decide) rfl rfl
    exact ParseScanMessage_v1 fl _ _ _ _ hs rfl rfl
      (Unmarshal_V1Data_of_member fl
        [("response_bytes_utf8", .str (String.mk (EncodeToString (utf8 S))))]
        "response_bytes_utf8" (String.mk (EncodeToString (utf8 S))) (utf8 S) rfl
        (DecodeString_EncodeToString _))
  · have hs := Unmarshal_Scan_of_members fl
      [("ip", .str ip), ("port", .num (.int false port)), ("service", .str service),
        ("timestamp", .num (JNumber.ofInt timestamp)), ("data_version", .num (.int false 2)),
        ("data", .obj [("response_str", .str S)])]
      "ip" "port" "service" "timestamp" "data_version"
      "data" ip service port (JNumber.ofInt timestamp) (.int false 2) timestamp 2
      [("response_str", .str S)]
      rfl rfl hport rfl rfl hint hlo hhi rfl rfl (by decide) (by decide) rfl rfl
    exact ParseScanMessage_v2 fl _ _ _ _ hs rfl rfl
      (Unmarshal_V2Data_of_member [("response_str", .str S)] "response_str" S rfl)

/-- Witness of C8: the text "hello world" on the envelope of the version 1
test. -/
theorem version_equivalence_witness :
    ParseScanMessage Float64Rules.plain (envelope "192.168.1.1" 80 "http" 1234567890 1
        (.obj [("response_bytes_utf8", .str "aGVsbG8gd29ybGQ=")]))
      = .ok { IP := utf8 "192.168.1.1", Port := 80, Service := utf8 "http",
              Timestamp := 1234567890, Response := utf8 "hello world", DataVersion := 1 } ∧
    ParseScanMessage Float64Rules.plain (envelope "192.168.1.1" 80 "http" 1234567890 2
        (.obj [("response_str", .str "hello world")]))
      = .ok { IP := utf8 "192.168.1.1", Port := 80, Service := utf8 "http",
              Timestamp := 1234567890, Response := utf8 "hello world", DataVersion := 2 } :=
  version_equivalence Float64Rules.plain "hello world" "192.168.1.1" "http" 80 1234567890
    (by decide) (by decide) (by decide)

/-- C9 as stated fails: a message with data_version 3 and no data fails with
"scan data is nil", which does not name the version; so does the full envelope
of the version 2 test with data_version 3 and its data left out. -/
theorem unknown_version_without_data :
    ParseScanMessage Float64Rules.plain
        (.wellFormed (.obj [("data_version", .num (.int false 3))]))
      = .error (.errorString "scan data is nil") ∧
    ParseScanMessage Float64Rules.plain
        (.wellFormed (.obj [("ip", .str "10.0.0.1"), ("port", .num (.int false 443)),
          ("service", .str "https"), ("timestamp", .num (.int false 9876543210)),
          ("data_version", .num (.int false 3))]))
      = .error (.errorString "scan data is nil") ∧
    GoError.Error (.errorString "scan data is nil") ≠ "unknown data version: 3" :=
  ⟨rfl, rfl, by decide⟩

/-- C9, amended: `ParseScanMessage` returns an error and no result for text
that is not well-formed JSON; for every version 1 message (its one data_version
is 1, its one data is an object) whose one `response_bytes_utf8` is a string
that is not valid base64; and for every message whose one data_version is an
integer `v` other than 1 and 2.  In the last case the error is "unknown data
version: " followed by `v` when the envelope is decoded and holds data; when
the envelope is not decoded the error is "failed to unmarshal scan data: ..."
around the error of the decoder, and when it holds no data the error is "scan
data is nil". -/
theorem parse_failures (fl : Float64Rules) :
    (ParseScanMessage fl .malformed
      = .error (Errorf "failed to unmarshal scan data: " SyntaxError)) ∧
    (∀ (members data : List (String × Json)) (k5 k6 k b64 : String) (n : JNumber),
      membersFor "data_version" members = [(k5, .num n)] → n.intValue = some 1 →
      membersFor "data" members = [(k6, .obj data)] →
      membersFor "response_bytes_utf8" data = [(k, .str b64)] →
      DecodeString b64.data = none →
      ∃ e, ParseScanMessage fl (.wellFormed (.obj members)) = .error e) ∧
    (∀ (members : List (String × Json)) (k5 : String) (n : JNumber) (v : Int),
      membersFor "data_version" members = [(k5, .num n)] → n.intValue = some v →
      v ≠ 1 → v ≠ 2 →
      (∃ e, ParseScanMessage fl (.wellFormed (.obj members)) = .error e) ∧
      (∀ scan, Unmarshal_Scan fl (.wellFormed (.obj members)) = .ok scan → scan.Data ≠ none →
        ParseScanMessage fl (.wellFormed (.obj members))
          = .error (.errorString ("unknown data version: " ++ toString v))) ∧
      (∀ err, Unmarshal_Scan fl (.wellFormed (.obj members)) = .error err →
        ParseScanMessage fl (.wellFormed (.obj members))
          = .error (Errorf "failed to unmarshal scan data: " err)) ∧
      (∀ scan, Unmarshal_Scan fl (.wellFormed (.obj members)) = .ok scan → scan.Data = none →
        ParseScanMessage fl (.wellFormed (.obj members))
          = .error (.errorString "scan data is nil"))) := by
  refine ⟨rfl, ?_, ?_⟩
  · intro members data k5 k6 k b64 n h5 hn h6 hb hd
    cases hs : Unmarshal_Scan fl (.wellFormed (.obj members)) with
    | error err => exact ⟨_, ParseScanMessage_of_error fl _ err hs⟩
    | ok scan =>
      obtain ⟨-, -, -, -, -, -, -, -, -, -, f5, f6⟩ := Scan.fields_of_members fl members scan hs
      have e5 : scan.DataVersion = 1 := f5 _ _ _ h5 hn
      have e6 : scan.Data = some (.obj data) := f6 _ _ h6
      obtain ⟨e, he⟩ := Unmarshal_V1Data_corrupt fl data k b64 hb hd
      rw [ParseScanMessage_of_scan fl _ scan _ hs e6, if_pos (by rw [e5]; rfl), he]
      exact ⟨_, rfl⟩
  · intro members k5 n v h5 hn hv1 hv2
    have key : ∀ scan, Unmarshal_Scan fl (.wellFormed (.obj members)) = .ok scan →
        scan.Data ≠ none →
        ParseScanMessage fl (.wellFormed (.obj members))
          = .error (.errorString ("unknown data version: " ++ toString v)) := by
      intro scan hs hdata
      obtain ⟨-, -, -, -, -, -, -, -, -, -, f5, -⟩ := Scan.fields_of_members fl members scan hs
      have e5 : scan.DataVersion = v := f5 _ _ _ h5 hn
      cases hd : scan.Data with
      | none => exact absurd hd hdata
      | some d =>
        rw [ParseScanMessage_of_scan fl _ scan d hs hd, if_neg (by rw [e5]; exact hv1),
          if_neg (by rw [e5]; exact hv2), e5]
    refine ⟨?_, key, fun err hs => ParseScanMessage_of_error fl _ err hs,
      fun scan hs hd => ParseScanMessage_of_nil fl _ scan hs hd⟩
    cases hs : Unmarshal_Scan fl (.wellFormed (.obj members)) with
    | error err => exact ⟨_, ParseScanMessage_of_error fl _ err hs⟩
    | ok scan =>
      cases hd : scan.Data with
      | none => exact ⟨_, ParseScanMessage_of_nil fl _ scan hs hd⟩
      | some d => exact ⟨_, key scan hs (by simp [hd])⟩

/-- Witness of C9, amended: the text of `TestParseScanMessage_InvalidJSON` is
no JSON; a version 1 message with the response "%%%" (no base64) fails; a
message with data_version 3 fails with "unknown data version: 3". -/
theorem parse_failures_witness :
    (ParseScanMessage Float64Rules.plain .malformed
      = .error (Errorf "failed to unmarshal scan data: " SyntaxError)) ∧
    (∃ e, ParseScanMessage Float64Rules.plain (envelope "10.0.0.1" 443 "https" 9876543210 1
        (.obj [("response_bytes_utf8", .str "%%%")])) = .error e) ∧
    ParseScanMessage Float64Rules.plain (envelope "10.0.0.1" 443 "https" 9876543210 3
        (.obj [("response_str", .str "service response")]))
      = .error (.errorString "unknown data version: 3") :=
  ⟨(parse_failures Float64Rules.plain).1,
    (parse_failures Float64Rules.plain).2.1
      [("ip", .str "10.0.0.1"), ("port", .num (.int false 443)), ("service", .str "https"),
        ("timestamp", .num (JNumber.ofInt 9876543210)), ("data_version", .num (.int false 1)),
        ("data", .obj [("response_bytes_utf8", .str "%%%")])]
      [("response_bytes_utf8", .str "%%%")]
      "data_version" "data" "response_bytes_utf8" "%%%" (.int false 1) rfl rfl rfl rfl
      (by decide),
    ((parse_failures Float64Rules.plain).2.2
      [("ip", .str "10.0.0.1"), ("port", .num (.int false 443)), ("service", .str "https"),
        ("timestamp", .num (JNumber.ofInt 9876543210)), ("data_version", .num (.int false 3)),
        ("data", .obj [("response_str", .str "service response")])]
      "data_version" (.int false 3) 3 rfl rfl
      (by decide) (by decide)).2.1 _ rfl (by simp)⟩

/-- C10 as stated fails: a message with no `ip` member, otherwise complete, is
decoded, and the result has the empty string for its IP; and a version 2
message whose data is the empty object is decoded with the empty response. -/
theorem parse_accepts_absent_ip :
    membersFor "ip" [("port", .num (.int false 80)), ("service", .str "http"),
        ("timestamp", .num (.int false 1234567890)), ("data_version", .num (.int false 2)),
        ("data", .obj [("response_str", .str "service response")])] = [] ∧
    ParseScanMessage Float64Rules.plain
        (.wellFormed (.obj [("port", .num (.int false 80)), ("service", .str "http"),
          ("timestamp", .num (.int false 1234567890)), ("data_version", .num (.int false 2)),
          ("data", .obj [("response_str", .str "service response")])]))
      = .ok { IP := [], Port := 80, Service := utf8 "http", Timestamp := 1234567890,
              Response := utf8 "service response", DataVersion := 2 } ∧
    ParseScanMessage Float64Rules.plain (envelope "10.0.0.1" 443 "https" 9876543210 2 (.obj []))
      = .ok { IP := utf8 "10.0.0.1", Port := 443, Service := utf8 "https",
              Timestamp := 9876543210, Response := [], DataVersion := 2 } :=
  ⟨rfl, rfl, rfl⟩

/-- C10, amended: `ParseScanMessage` fails for every message with no `data`
member and for every message with no `data_version` member, so the
data_version of a returned result is 1 or 2, as the message says.  A message
with no `ip`, `port`, `service` or `timestamp` member, or whose data object has
no member for the payload of its version (`response_bytes_utf8` under version
1, `response_str` under version 2), can be decoded, and the result then holds
the zero value in that field: the empty string, or 0. -/
theorem parse_absent_fields (fl : Float64Rules) (members : List (String × Json)) :
    (membersFor "data" members = [] →
      ∃ e, ParseScanMessage fl (.wellFormed (.obj members)) = .error e) ∧
    (membersFor "data_version" members = [] →
      ∃ e, ParseScanMessage fl (.wellFormed (.obj members)) = .error e) ∧
    ∀ r, ParseScanMessage fl (.wellFormed (.obj members)) = .ok r →
      (membersFor "ip" members = [] → r.IP = []) ∧
      (membersFor "port" members = [] → r.Port = 0) ∧
      (membersFor "service" members = [] → r.Service = []) ∧
      (membersFor "timestamp" members = [] → r.Timestamp = 0) ∧
      (r.DataVersion = 1 ∨ r.DataVersion = 2) ∧
      (∀ k n, membersFor "data_version" members = [(k, .num n)] →
        n.intValue = some r.DataVersion) ∧
      (∀ k data, membersFor "data" members = [(k, .obj data)] →
        (r.DataVersion = 1 → membersFor "response_bytes_utf8" data = [] → r.Response = []) ∧
        (r.DataVersion = 2 → membersFor "response_str" data = [] → r.Response = [])) := by
  refine ⟨?_, ?_, ?_⟩
  · intro h
    cases hs : Unmarshal_Scan fl (.wellFormed (.obj members)) with
    | error err => exact ⟨_, ParseScanMessage_of_error fl _ err hs⟩
    | ok scan =>
      obtain ⟨-, -, -, -, -, f6, -⟩ := Scan.fields_of_members fl members scan hs
      exact ⟨_, ParseScanMessage_of_nil fl _ scan hs (f6 h)⟩
  · intro h
    cases hs : Unmarshal_Scan fl (.wellFormed (.obj members)) with
    | error err => exact ⟨_, ParseScanMessage_of_error fl _ err hs⟩
    | ok scan =>
      obtain ⟨-, -, -, -, f5, -⟩ := Scan.fields_of_members fl members scan hs
      have e5 : scan.DataVersion = 0 := f5 h
      cases hd : scan.Data with
      | none => exact ⟨_, ParseScanMessage_of_nil fl _ scan hs hd⟩
      | some d =>
        rw [ParseScanMessage_of_scan fl _ scan d hs hd, if_neg (by rw [e5]; decide),
          if_neg (by rw [e5]; decide)]
        exact ⟨_, rfl⟩
  · intro r hr
    obtain ⟨scan, hs, -, hver, e1, e2, e3, e4, e5⟩ := ParseScanMessage_ok_inv fl _ r hr
    obtain ⟨f1, f2, f3, f4, -, -, -, -, -, -, g5, g6⟩ :=
      Scan.fields_of_members fl members scan hs
    rw [e1, e2, e3, e4, e5]
    refine ⟨f1, f2, f3, f4, hver, ?_, ?_⟩
    · intro k n hmem
      cases hn : n.intValue with
      | none =>
        cases n with
        | int neg mag => simp [JNumber.intValue] at hn
        | real l =>
          exfalso
          have hmem' : (k, Json.num (.real l)) ∈ membersFor "data_version" members := by
            rw [hmem]; simp
          obtain ⟨hin, hk⟩ := (mem_membersFor _ _ _).1 hmem'
          have herr : ∀ st, ∃ e, Scan.decodeMember fl st (k, Json.num (.real l)) = .error e := by
            intro st
            rw [Scan.decodeMember_data_version fl st _ hk]
            exact ⟨_, rfl⟩
          obtain ⟨e, he⟩ := foldlM_error (Scan.decodeMember fl) members _ hin herr Scan.zero
          have hs' : members.foldlM (Scan.decodeMember fl) Scan.zero = .ok scan := hs
          rw [he] at hs'
          cases hs'
      | some v => rw [g5 k n v hmem hn]
    · intro k data hdata
      obtain ⟨scan', d, hs', hd', -, hresp⟩ := ParseScanMessage_ok_response fl _ r hr
      rw [hs] at hs'
      injection hs' with hs'
      subst hs'
      have hd2 : scan.Data = some (.obj data) := g6 _ _ hdata
      rw [hd2] at hd'
      injection hd' with hd'
      subst hd'
      constructor
      · intro h1 habs
        rcases hresp with ⟨-, v1, hv, hr1⟩ | ⟨h2, -⟩
        · rw [hr1]
          exact Unmarshal_V1Data_absent fl data v1 hv habs
        · rw [h1] at h2
          exact absurd h2 (by decide)
      · intro h2 habs
        rcases hresp with ⟨h1, -⟩ | ⟨-, v2, hv, hr2⟩
        · rw [h2] at h1
          exact absurd h1 (by decide)
        · rw [hr2]
          exact Unmarshal_V2Data_absent data v2 hv habs

/-- Witness of C10, amended: the message without `data` fails; whatever the
message without `ip` is decoded to has an empty IP; and whatever the version 2
message with the empty data object is decoded to has an empty response. -/
theorem parse_absent_fields_witness :
    (∃ e, ParseScanMessage Float64Rules.plain
        (.wellFormed (.obj [("ip", .str "10.0.0.1"), ("port", .num (.int false 443)),
          ("service", .str "https"), ("timestamp", .num (.int false 9876543210)),
          ("data_version", .num (.int false 2))])) = .error e) ∧
    (∀ r, ParseScanMessage Float64Rules.plain
        (.wellFormed (.obj [("port", .num (.int false 80)), ("service", .str "http"),
          ("timestamp", .num (.int false 1234567890)), ("data_version", .num (.int false 2)),
          ("data", .obj [("response_str", .str "service response")])])) = .ok r →
      r.IP = []) ∧
    ∀ r, ParseScanMessage Float64Rules.plain
        (.wellFormed (.obj [("ip", .str "10.0.0.1"), ("port", .num (.int false 443)),
          ("service", .str "https"), ("timestamp", .num (.int false 9876543210)),
          ("data_version", .num (.int false 2)), ("data", .obj [])])) = .ok r →
      r.DataVersion = 2 → r.Response = [] :=
  ⟨(parse_absent_fields Float64Rules.plain _).1 rfl,
    fun r hr => ((parse_absent_fields Float64Rules.plain
        [("port", .num (.int false 80)), ("service", .str "http"),
          ("timestamp", .num (.int false 1234567890)), ("data_version", .num (.int false 2)),
          ("data", .obj [("response_str", .str "service response")])]).2.2 r hr).1 rfl,
    fun r hr hv => ((((parse_absent_fields Float64Rules.plain
        [("ip", .str "10.0.0.1"), ("port", .num (.int false 443)),
          ("service", .str "https"), ("timestamp", .num (.int false 9876543210)),
          ("data_version", .num (.int false 2)), ("data", .obj [])]).2.2 r hr).2.2.2.2.2.2
        "data" [] rfl).2 hv) rfl⟩

/-! ## Claims on the handler and the manager -/

/-- C11: on every delivered message the handler makes exactly one call on the
message, `Ack` or `Nack`; it is `Ack` exactly when `ParseScanMessage` succeeds
and `PutScan` of the result returns no error, and `Nack` otherwise; when
decoding fails the repository is left as it was and `Put` is never called, and
when decoding succeeds `Put` is called once, with the decoded result. -/
theorem handler_acks_iff_decoded_and_stored {σ : Type} (fl : Float64Rules)
    (manager : scanManager σ) (c : Consumer σ) (msg : Message) (log : List ScanResult) :
    ((runConsumer.handler fl manager c msg).2 = [.Ack] ∨
      (runConsumer.handler fl manager c msg).2 = [.Nack]) ∧
    ((runConsumer.handler fl manager c msg).2 = [.Ack] ↔
      ∃ result, ParseScanMessage fl msg.Data = .ok result ∧
        (manager.PutScan c.repo result).1 = none) ∧
    ((runConsumer.handler fl manager c msg).2 = [.Nack] ↔
      ¬ ∃ result, ParseScanMessage fl msg.Data = .ok result ∧
        (manager.PutScan c.repo result).1 = none) ∧
    (∀ err, ParseScanMessage fl msg.Data = .error err →
      (runConsumer.handler fl manager c msg).1.repo = c.repo ∧
      (runConsumer.handler fl { repo := manager.repo.recording }
        { repo := (c.repo, log), processed := c.processed, failed := c.failed,
          stdout := c.stdout } msg).1.repo = (c.repo, log)) ∧
    (∀ result, ParseScanMessage fl msg.Data = .ok result →
      (runConsumer.handler fl { repo := manager.repo.recording }
        { repo := (c.repo, log), processed := c.processed, failed := c.failed,
          stdout := c.stdout } msg).1.repo
        = ((manager.repo.Put c.repo result).2, log ++ [result])) := by
  have hrec := handler_cases fl { repo := manager.repo.recording }
    { repo := (c.repo, log), processed := c.processed, failed := c.failed,
      stdout := c.stdout } msg
  rcases handler_cases fl manager c msg with ⟨err, h, hcall, hrepo⟩ |
    ⟨result, err, h, hp, hcall, hrepo⟩ | ⟨result, h, hp, hcall, hrepo⟩
  · refine ⟨Or.inr hcall, ?_, ?_, ?_, ?_⟩
    · rw [hcall]
      constructor
      · intro hc
        cases hc
      · rintro ⟨r, hr, -⟩
        rw [h] at hr
        cases hr
    · rw [hcall]
      refine ⟨fun _ => ?_, fun _ => rfl⟩
      rintro ⟨r, hr, -⟩
      rw [h] at hr
      cases hr
    · intro err' _
      refine ⟨hrepo, ?_⟩
      rcases hrec with ⟨e, -, -, hr⟩ | ⟨r, e, hr, -⟩ | ⟨r, hr, -⟩
      · exact hr
      · rw [h] at hr
        cases hr
      · rw [h] at hr
        cases hr
    · intro r hr
      rw [h] at hr
      cases hr
  · refine ⟨Or.inr hcall, ?_, ?_, ?_, ?_⟩
    · rw [hcall]
      constructor
      · intro hc
        cases hc
      · rintro ⟨r, hr, hn⟩
        rw [h] at hr
        injection hr with hr
        subst hr
        rw [hp] at hn
        cases hn
    · rw [hcall]
      refine ⟨fun _ => ?_, fun _ => rfl⟩
      rintro ⟨r, hr, hn⟩
      rw [h] at hr
      injection hr with hr
      subst hr
      rw [hp] at hn
      cases hn
    · intro err' he
      rw [h] at he
      cases he
    · intro r hr
      rw [h] at hr
      injection hr with hr
      subst hr
      rcases hrec with ⟨e, he, -⟩ | ⟨r, e, hr, -, -, hrr⟩ | ⟨r, hr, -, -, hrr⟩
      · rw [h] at he
        cases he
      · rw [h] at hr
        injection hr with hr
        subst hr
        rw [hrr, PutScan_state, recording_Put_snd]
      · rw [h] at hr
        injection hr with hr
        subst hr
        rw [hrr, PutScan_state, recording_Put_snd]
  · refine ⟨Or.inl hcall, ?_, ?_, ?_, ?_⟩
    · rw [hcall]
      exact ⟨fun _ => ⟨result, h, hp⟩, fun _ => rfl⟩
    · rw [hcall]
      constructor
      · intro hc
        cases hc
      · intro hn
        exact absurd ⟨result, h, hp⟩ hn
    · intro err' he
      rw [h] at he
      cases he
    · intro r hr
      rw [h] at hr
      injection hr with hr
      subst hr
      rcases hrec with ⟨e, he, -⟩ | ⟨r, e, hr, -, -, hrr⟩ | ⟨r, hr, -, -, hrr⟩
      · rw [h] at he
        cases he
      · rw [h] at hr
        injection hr with hr
        subst hr
        rw [hrr, PutScan_state, recording_Put_snd]
      · rw [h] at hr
        injection hr with hr
        subst hr
        rw [hrr, PutScan_state, recording_Put_snd]

/-- Witness of C11: on an empty table the newer message of the out-of-order
test is acknowledged; after it the older one, a stale write, is acknowledged
too; text that is no JSON is negatively acknowledged and the table stays
empty; and with an unreachable store the message is negatively acknowledged. -/
theorem handler_acks_witness :
    (runConsumer.handler Float64Rules.plain manager (Consumer.start Table.empty)
      ⟨envelope "172.16.0.1" 443 "https" 5000000000 2
        (.obj [("response_str", .str "newer response")])⟩).2 = [.Ack] ∧
    (runConsumer.handler Float64Rules.plain manager
      (Consumer.start (putTable Table.empty
        ⟨utf8 "172.16.0.1", 443, utf8 "https", 5000000000, utf8 "newer response", 2⟩))
      ⟨envelope "172.16.0.1" 443 "https" 3000000000 2
        (.obj [("response_str", .str "older response")])⟩).2 = [.Ack] ∧
    ((runConsumer.handler Float64Rules.plain manager (Consumer.start Table.empty)
        ⟨.malformed⟩).2 = [.Nack] ∧
      (runConsumer.handler Float64Rules.plain manager (Consumer.start Table.empty)
        ⟨.malformed⟩).1.repo = Table.empty) ∧
    (runConsumer.handler Float64Rules.plain
      { repo := (dynamoDB.mk Client.unreachable).Repository } (Consumer.start Table.empty)
      ⟨envelope "172.16.0.1" 443 "https" 5000000000 2
        (.obj [("response_str", .str "newer response")])⟩).2 = [.Nack] :=
  ⟨(handler_acks_iff_decoded_and_stored Float64Rules.plain manager
      (Consumer.start Table.empty) _ []).2.1.2 ⟨_, rfl, rfl⟩,
    (handler_acks_iff_decoded_and_stored Float64Rules.plain manager
      (Consumer.start (putTable Table.empty
        ⟨utf8 "172.16.0.1", 443, utf8 "https", 5000000000, utf8 "newer response", 2⟩))
      _ []).2.1.2 ⟨_, rfl, rfl⟩,
    ⟨(handler_acks_iff_decoded_and_stored Float64Rules.plain manager
        (Consumer.start Table.empty) ⟨.malformed⟩ []).2.2.1.2
        (fun ⟨_, h, _⟩ => by cases h),
      ((handler_acks_iff_decoded_and_stored Float64Rules.plain manager
        (Consumer.start Table.empty) ⟨.malformed⟩ []).2.2.2.1 _ rfl).1⟩,
    (handler_acks_iff_decoded_and_stored Float64Rules.plain
      { repo := (dynamoDB.mk Client.unreachable).Repository } (Consumer.start Table.empty)
      ⟨envelope "172.16.0.1" 443 "https" 5000000000 2
        (.obj [("response_str", .str "newer response")])⟩ []).2.2.1.2
      (fun ⟨r, h, hp⟩ => by
        have hr : r = ⟨utf8 "172.16.0.1", 443, utf8 "https", 5000000000,
            utf8 "newer response", 2⟩ := by
          have h' : ParseScanMessage Float64Rules.plain
              (envelope "172.16.0.1" 443 "https" 5000000000 2
                (.obj [("response_str", .str "newer response")]))
              = .ok ⟨utf8 "172.16.0.1", 443, utf8 "https", 5000000000,
                  utf8 "newer response", 2⟩ := rfl
          rw [h'] at h
          injection h with h
          exact h.symm
        subst hr
        cases hp)⟩

/-- C12: for every repository, every state of it and every result, `PutScan`
calls `Put` of the repository once, with that result, whatever the state and
the result: the repository is left as this one call leaves it, and a recording
repository has recorded the result and nothing else; `PutScan` returns an
error exactly when `Put` does, and that error is "failed to put scan: ..."
wrapping the error of `Put`. -/
theorem PutScan_passes_through {σ : Type} (m : scanManager σ) (s : σ) (result : ScanResult)
    (log : List ScanResult) :
    (m.PutScan s result).2.1 = (m.repo.Put s result).2 ∧
    ((scanManager.mk m.repo.recording).PutScan (s, log) result).2.1
      = ((m.repo.Put s result).2, log ++ [result]) ∧
    ((m.PutScan s result).1 = none ↔ (m.repo.Put s result).1 = none) ∧
    (∀ err, (m.repo.Put s result).1 = some err →
      ∃ e, (m.PutScan s result).1 = some e ∧ e.Unwrap = some err ∧
        e.Error = "failed to put scan: " ++ err.Error) := by
  refine ⟨PutScan_state m s result, ?_, ?_, ?_⟩
  · rw [PutScan_state, recording_Put_snd]
  · rw [PutScan_error]
    cases (m.repo.Put s result).1 <;> simp
  · intro err h
    refine ⟨Errorf "failed to put scan: " err, ?_, rfl, rfl⟩
    rw [PutScan_error, h]
    rfl

/-- Witness of C12: the two cases of `TestPutScan`, a repository that accepts
and one that fails with "repository error". -/
theorem PutScan_passes_through_witness :
    ((scanManager.mk (MockRepository false)).PutScan ()
        ⟨utf8 "192.168.1.1", 80, utf8 "http", 1234567890, utf8 "test response", 1⟩).1
      = none ∧
    ∃ e, ((scanManager.mk (MockRepository true)).PutScan ()
        ⟨utf8 "192.168.1.1", 80, utf8 "http", 1234567890, utf8 "test response", 1⟩).1
      = some e ∧ e.Unwrap = some (.errorString "repository error") ∧
      e.Error = "failed to put scan: " ++ "repository error" :=
  ⟨(PutScan_passes_through (scanManager.mk (MockRepository false)) ()
      ⟨utf8 "192.168.1.1", 80, utf8 "http", 1234567890, utf8 "test response", 1⟩ []).2.2.1.2
      rfl,
    (PutScan_passes_through (scanManager.mk (MockRepository true)) ()
      ⟨utf8 "192.168.1.1", 80, utf8 "http", 1234567890, utf8 "test response", 1⟩ []).2.2.2
      _ rfl⟩

end MiniScan
